import Mathlib

/-!
Verification of the download orchestration and error-state engine of the
twitter-likejs-download repository.  The definitions below are shallow
embeddings of the JavaScript source files (`download-tweets.js` together with
its bundled error manager, `media-check-and-download.js`, and the
validation/reconciliation scripts).  Maps realised as plain JavaScript objects
are embedded as association lists keyed by strings, preserving insertion
order; JavaScript numbers used as counters are embedded as `Int` (they may go
negative on decrement).  The theorems at the end of the file settle the
frozen claims about this code.
-/

namespace LikeJs

/-! ### Association-list helpers (plain-object maps, insertion ordered) -/

/-- Lookup in an association list: first binding wins (JS property lookup). -/
def alookup [DecidableEq α] (k : α) : List (α × β) → Option β
  | [] => none
  | (k₂, v) :: rest => if k₂ = k then some v else alookup k rest

/-- Property assignment `obj[k] = v`: updates an existing key in place
(keeping its position, as JS objects do) or appends a new binding. -/
def aupsert [DecidableEq α] (m : List (α × β)) (k : α) (v : β) : List (α × β) :=
  match alookup k m with
  | some _ => m.map (fun p => if p.1 = k then (k, v) else p)
  | none => m ++ [(k, v)]

/-- Property deletion `delete obj[k]`. -/
def aremove [DecidableEq α] (m : List (α × β)) (k : α) : List (α × β) :=
  m.filter (fun p => !(decide (p.1 = k)))

/-- Counter increment `if (!obj[k]) obj[k] = 0; obj[k]++` from the source. -/
def ainc [DecidableEq α] (m : List (α × Int)) (k : α) : List (α × Int) :=
  match alookup k m with
  | some _ => m.map (fun p => if p.1 = k then (p.1, p.2 + 1) else p)
  | none => m ++ [(k, 1)]

/-- Counter decrement `obj[k]--` from the source.  The source only ever
decrements a key it has previously created (every stored record was inserted
by `addError`, which creates the key), so the embedding decrements in place
and leaves the map unchanged on the unreachable missing-key case. -/
def adec [DecidableEq α] (m : List (α × Int)) (k : α) : List (α × Int) :=
  match alookup k m with
  | some _ => m.map (fun p => if p.1 = k then (p.1, p.2 - 1) else p)
  | none => m

/-- Read a counter, with absent keys counting as zero. -/
def azero [DecidableEq α] (m : List (α × Int)) (k : α) : Int :=
  (alookup k m).getD 0

/-! ### JavaScript `String.prototype.includes` -/

/-- Boolean list-prefix test used by `containsSub`. -/
def prefixOfL : List Char → List Char → Bool
  | [], _ => true
  | _ :: _, [] => false
  | p :: ps, c :: cs => p == c && prefixOfL ps cs

/-- Substring occurrence test on character lists. -/
def containsSub (pat : List Char) : List Char → Bool
  | [] => prefixOfL pat []
  | c :: cs => prefixOfL pat (c :: cs) || containsSub pat cs

/-- `s.includes(pat)` from JavaScript. -/
def includes (s pat : String) : Bool :=
  containsSub pat.data s.data

/-! ### Error taxonomy and classifier (`error-manager.js`, `ERROR_TYPES` and
`determineErrorType`) -/

/-- The closed error-kind enumeration `ERROR_TYPES`. -/
inductive ErrorType
  | download_failed
  | json_parse_error
  | media_404
  | media_403
  | media_download_failed
  | rate_limit
  | auth_error
  | network_error
  | unknown_error
  | not_found
  deriving DecidableEq, Repr

/-- `determineErrorType(error, output = '')`: classifies the text
`error.message + ' ' + output` by an ordered cascade of substring tests. -/
def determineErrorType (errorMessage : String) (output : String := "") : ErrorType :=
  let fullMessage := errorMessage ++ " " ++ output
  if includes fullMessage "404" || includes fullMessage "Not Found" then
    ErrorType.media_404
  else if includes fullMessage "403" || includes fullMessage "Forbidden" then
    ErrorType.media_403
  else if includes fullMessage "429" || includes fullMessage "Too Many Requests"
      || includes fullMessage "Rate limit" then
    ErrorType.rate_limit
  else if includes fullMessage "Authentication failed" || includes fullMessage "Unauthorized"
      || includes fullMessage "Login failed" then
    ErrorType.auth_error
  else if includes fullMessage "ENOTFOUND" || includes fullMessage "ECONNREFUSED"
      || includes fullMessage "ETIMEDOUT" then
    ErrorType.network_error
  else if includes fullMessage "JSON" || includes fullMessage "parse" then
    ErrorType.json_parse_error
  else if includes fullMessage "download" || includes fullMessage "Failed to get" then
    ErrorType.media_download_failed
  else
    ErrorType.unknown_error

/-- The classifier rules as an ordered first-match list, written from the
spec wording (404, 403, 429/rate-limit, auth, network, json/parse, download,
otherwise unknown). -/
def classifierRules : List (List String × ErrorType) :=
  [ (["404", "Not Found"], ErrorType.media_404)
  , (["403", "Forbidden"], ErrorType.media_403)
  , (["429", "Too Many Requests", "Rate limit"], ErrorType.rate_limit)
  , (["Authentication failed", "Unauthorized", "Login failed"], ErrorType.auth_error)
  , (["ENOTFOUND", "ECONNREFUSED", "ETIMEDOUT"], ErrorType.network_error)
  , (["JSON", "parse"], ErrorType.json_parse_error)
  , (["download", "Failed to get"], ErrorType.media_download_failed) ]

/-- First-match evaluation of an ordered rule list over a text, defaulting to
`unknown_error`. -/
def firstMatch (text : String) : List (List String × ErrorType) → ErrorType
  | [] => ErrorType.unknown_error
  | (pats, k) :: rest =>
    if pats.any (fun p => includes text p) then k else firstMatch text rest

/-! ### Error Ledger (`error-manager.js`, class `ErrorManager`) -/

/-- One stored error record (value of `this.errors.errors[tweetId]`).  The
free-form `details` map is embedded as a string-to-string association list. -/
structure ErrorRecord where
  type : ErrorType
  timestamp : String
  details : List (String × String)
  retry_count : Nat
  deriving DecidableEq, Repr

/-- The aggregate statistics object `this.errors.statistics`. -/
structure Statistics where
  total_errors : Int
  by_type : List (ErrorType × Int)
  by_date : List (String × Int)
  deriving DecidableEq, Repr

/-- The full `ErrorManager` state: the record map, the statistics, and the
batch-mode flag controlling synchronous persistence. -/
structure ErrorManager where
  errors : List (String × ErrorRecord)
  statistics : Statistics
  batchMode : Bool
  deriving DecidableEq, Repr

/-- The empty ledger the constructor falls back to when no durable file
exists (or it cannot be parsed). -/
def emptyEM : ErrorManager :=
  { errors := []
  , statistics := { total_errors := 0, by_type := [], by_date := [] }
  , batchMode := false }

/-- `timestamp.split('T')[0]`: the UTC calendar-date component of an ISO
timestamp. -/
def dateOf (ts : String) : String :=
  ts.takeWhile (fun c => c != 'T')

/-- `addError(tweetId, errorType, details)` together with its persistence
signal: the returned Bool is true exactly when `saveErrors()` ran (batch mode
off).  `timestamp` stands for `new Date().toISOString()` at the call. -/
def ErrorManager.addErrorRun (em : ErrorManager) (tweetId : String) (errorType : ErrorType)
    (details : List (String × String)) (timestamp : String) : ErrorManager × Bool :=
  let prior : Nat :=
    match alookup tweetId em.errors with
    | some r => r.retry_count
    | none => 0
  let rec0 : ErrorRecord :=
    { type := errorType, timestamp := timestamp, details := details
    , retry_count := prior + 1 }
  let st := em.statistics
  let st' : Statistics :=
    { total_errors := st.total_errors + 1
    , by_type := ainc st.by_type errorType
    , by_date := ainc st.by_date (dateOf timestamp) }
  ({ em with errors := aupsert em.errors tweetId rec0, statistics := st' },
   !em.batchMode)

/-- `addError` as a pure state transition. -/
def ErrorManager.addError (em : ErrorManager) (tweetId : String) (errorType : ErrorType)
    (details : List (String × String)) (timestamp : String) : ErrorManager :=
  (em.addErrorRun tweetId errorType details timestamp).1

/-- `hasError(tweetId)`. -/
def ErrorManager.hasError (em : ErrorManager) (tweetId : String) : Bool :=
  (alookup tweetId em.errors).isSome

/-- `getError(tweetId)`. -/
def ErrorManager.getError (em : ErrorManager) (tweetId : String) : Option ErrorRecord :=
  alookup tweetId em.errors

/-- `removeError(tweetId)` together with its persistence signal: the record
is deleted and the counters for its current kind and date are decremented;
when no record exists nothing happens and nothing is saved. -/
def ErrorManager.removeErrorRun (em : ErrorManager) (tweetId : String) : ErrorManager × Bool :=
  match alookup tweetId em.errors with
  | none => (em, false)
  | some r =>
    let st := em.statistics
    let st' : Statistics :=
      { total_errors := st.total_errors - 1
      , by_type := adec st.by_type r.type
      , by_date := adec st.by_date (dateOf r.timestamp) }
    ({ em with errors := aremove em.errors tweetId, statistics := st' },
     !em.batchMode)

/-- `removeError` as a pure state transition. -/
def ErrorManager.removeError (em : ErrorManager) (tweetId : String) : ErrorManager :=
  (em.removeErrorRun tweetId).1

/-- `clearError(tweetId)` is an alias that delegates to `removeError`. -/
def ErrorManager.clearErrorRun (em : ErrorManager) (tweetId : String) : ErrorManager × Bool :=
  em.removeErrorRun tweetId

/-- `clearAllErrors()`: resets the record map and every counter. -/
def ErrorManager.clearAllErrors (em : ErrorManager) : ErrorManager :=
  { em with
    errors := []
    statistics := { total_errors := 0, by_type := [], by_date := [] } }

/-- Number of records currently stored. -/
def ErrorManager.recordCount (em : ErrorManager) : Nat :=
  em.errors.length

/-- Number of currently stored records of a given kind. -/
def ErrorManager.typeCount (em : ErrorManager) (k : ErrorType) : Nat :=
  (em.errors.filter (fun p => decide (p.2.type = k))).length

/-! ### Ledger operation sequences (for the statistics claims) -/

/-- A mutating ledger operation: `addError`, `removeError` (also reachable
through its alias `clearError`), or `clearAllErrors`. -/
inductive LedgerOp
  | add (id : String) (k : ErrorType) (ts : String)
  | remove (id : String)
  | clearAll
  deriving DecidableEq, Repr

/-- Apply one operation. -/
def applyOp (em : ErrorManager) : LedgerOp → ErrorManager
  | LedgerOp.add id k ts => em.addError id k [] ts
  | LedgerOp.remove id => em.removeError id
  | LedgerOp.clearAll => em.clearAllErrors

/-- Apply a sequence of operations left to right. -/
def applyOps (em : ErrorManager) (ops : List LedgerOp) : ErrorManager :=
  ops.foldl applyOp em

/-- The consistency property claimed for the statistics: the total equals the
number of stored records and each per-kind counter equals the number of
stored records of that kind. -/
def ConsistentStats (em : ErrorManager) : Prop :=
  em.statistics.total_errors = (em.recordCount : Int) ∧
  ∀ k : ErrorType, azero em.statistics.by_type k = (em.typeCount k : Int)

/-- Decidable check that an operation sequence never re-adds an id that
currently holds a record (every `add` targets a fresh id at execution time). -/
def freshRun (em : ErrorManager) : List LedgerOp → Bool
  | [] => true
  | op :: rest =>
    (match op with
     | LedgerOp.add id _ _ => !em.hasError id
     | _ => true) &&
    freshRun (applyOp em op) rest

/-- The id of the record an operation touches, if any. -/
def opId : LedgerOp → Option String
  | LedgerOp.add id _ _ => some id
  | LedgerOp.remove id => some id
  | LedgerOp.clearAll => none

/-- Well-formedness of a ledger state: every stored record has live counter
keys for its kind and its date.  Every state the ledger itself constructs
satisfies this, because `addError` creates both keys. -/
def WFLedger (em : ErrorManager) : Bool :=
  em.errors.all (fun p =>
    (alookup p.2.type em.statistics.by_type).isSome &&
    (alookup (dateOf p.2.timestamp) em.statistics.by_date).isSome)

/-! ### Concurrency Limiter (`media-check-and-download.js`, class
`ConcurrencyLimiter`)

`run(fn)` checks `running >= maxConcurrency` once; if so it awaits a promise
whose resolver joins `queue`.  A finishing task runs
`running--; if (queue.length > 0) queue.shift()()` in one synchronous block,
but the released waiter resumes in a later microtask, at which point it
executes `running++` without re-checking the bound.  The embedding therefore
distinguishes three events: `submit` (the synchronous front of `run`),
`finish` (the synchronous `finally` block), and `resume` (the released
waiter continuing past its `await`). -/

/-- Status of one task submitted to the limiter. -/
inductive TaskStatus
  | queued
  | scheduled
  | running
  | done
  deriving DecidableEq, Repr

/-- The limiter state: the `running` counter, the FIFO resolver queue, and
the status of every submitted task (keyed by a task identifier). -/
structure LimiterState where
  maxConcurrency : Nat
  running : Nat
  queue : List Nat
  status : List (Nat × TaskStatus)
  deriving DecidableEq, Repr

/-- A fresh limiter: `new ConcurrencyLimiter(N)`. -/
def initLimiter (n : Nat) : LimiterState :=
  { maxConcurrency := n, running := 0, queue := [], status := [] }

/-- Scheduler events for a limiter execution. -/
inductive LEvent
  | submit (t : Nat)
  | finish (t : Nat)
  | resume (t : Nat)
  deriving DecidableEq, Repr

/-- Whether an event is a submission. -/
def LEvent.isSubmitEv : LEvent → Bool
  | LEvent.submit _ => true
  | _ => false

/-- One step of the limiter.  `none` marks an event that cannot occur (such
as finishing a task that is not running). -/
def lstep (s : LimiterState) : LEvent → Option LimiterState
  | LEvent.submit t =>
    if (alookup t s.status).isSome then none
    else if s.maxConcurrency ≤ s.running then
      some { s with queue := s.queue ++ [t], status := s.status ++ [(t, TaskStatus.queued)] }
    else
      some { s with running := s.running + 1, status := s.status ++ [(t, TaskStatus.running)] }
  | LEvent.finish t =>
    if alookup t s.status = some TaskStatus.running then
      let st1 := aupsert s.status t TaskStatus.done
      match s.queue with
      | [] => some { s with running := s.running - 1, status := st1 }
      | w :: rest =>
        let st2 := aupsert st1 w TaskStatus.scheduled
        some { s with running := s.running - 1, queue := rest, status := st2 }
    else none
  | LEvent.resume t =>
    if alookup t s.status = some TaskStatus.scheduled then
      some { s with running := s.running + 1, status := aupsert s.status t TaskStatus.running }
    else none

/-- Run a list of events from a state; `none` if any event is impossible. -/
def runTrace (s : LimiterState) : List LEvent → Option LimiterState
  | [] => some s
  | e :: es =>
    match lstep s e with
    | none => none
    | some s' => runTrace s' es

/-- Number of tasks currently in the started-but-not-finished state. -/
def runningCount (s : LimiterState) : Nat :=
  (s.status.filter (fun p => decide (p.2 = TaskStatus.running))).length

/-- Number of tasks released from the queue but not yet resumed. -/
def scheduledCount (s : LimiterState) : Nat :=
  (s.status.filter (fun p => decide (p.2 = TaskStatus.scheduled))).length

/-- Every state along a trace keeps at most `n` tasks concurrently running
(invalid suffixes are vacuously bounded, matching "at no point during the
execution"). -/
def boundedRun (n : Nat) (s : LimiterState) : List LEvent → Bool
  | [] => decide (runningCount s ≤ n)
  | e :: es =>
    decide (runningCount s ≤ n) &&
    (match lstep s e with
     | none => true
     | some s' => boundedRun n s' es)

/-- All submitted tasks have completed. -/
def allDone (s : LimiterState) : Bool :=
  s.status.all (fun p => decide (p.2 = TaskStatus.done))

/-- Termination measure for the completion argument: queued tasks count 3,
scheduled 2, running 1, finished 0. -/
def tweight : TaskStatus → Nat
  | TaskStatus.queued => 3
  | TaskStatus.scheduled => 2
  | TaskStatus.running => 1
  | TaskStatus.done => 0

/-- Total measure of a limiter state. -/
def lmeasure (s : LimiterState) : Nat :=
  (s.status.map (fun p => tweight p.2)).sum

/-! ### Media entries and variant selection (`media-check-and-download.js`,
`processTweetDir`) -/

/-- One entry of `media.videos`: a url with an optional bitrate (the source
reads it as `v.bitrate || 0`). -/
structure VideoVariant where
  url : String
  bitrate : Option Nat
  deriving DecidableEq, Repr

/-- The sort key `(v.bitrate || 0)`. -/
def vkey (v : VideoVariant) : Nat :=
  v.bitrate.getD 0

/-- Stable descending insertion: a variant moves ahead of a later-encountered
variant exactly when its key is at least as large, so equal keys keep their
encounter order. -/
def insertDesc (v : VideoVariant) : List VideoVariant → List VideoVariant
  | [] => [v]
  | w :: ws => if vkey w ≤ vkey v then v :: w :: ws else w :: insertDesc v ws

/-- `media.videos.slice().sort((a, b) => (b.bitrate || 0) - (a.bitrate || 0))`.
ECMA-262 requires `Array.prototype.sort` to be stable, and every stable sort
under this comparator produces the same list, so the embedding uses a stable
insertion sort. -/
def sortVideos : List VideoVariant → List VideoVariant
  | [] => []
  | v :: vs => insertDesc v (sortVideos vs)

/-- The variant the source downloads: `sorted[0]` when the list is
nonempty. -/
def selectedVariant (vs : List VideoVariant) : Option VideoVariant :=
  (sortVideos vs).head?

/-- Written from the spec wording: the variant with the highest bitrate,
ties broken by encounter order (the first maximum of the list). -/
def firstMaxVariant (vs : List VideoVariant) : Option VideoVariant :=
  vs.foldl
    (fun acc w =>
      match acc with
      | none => some w
      | some m => if vkey m < vkey w then some w else some m)
    none

/-- One item of a tweet's `media` array.  `photo` carries `media.image` when
present; `video` carries the `media.videos` array (the source enters the
video branch only when it is an array) and the optional `media.cover`
thumbnail; every other shape falls into the unsupported branch. -/
inductive MediaItem
  | photo (image : Option String)
  | video (videos : List VideoVariant) (cover : Option String)
  | unsupported
  deriving DecidableEq, Repr

/-- The parsed metadata document, as far as the orchestrator reads it:
`media` is `some` exactly when the document holds a media array. -/
structure TweetData where
  media : Option (List MediaItem)
  deriving DecidableEq, Repr

/-- Result of `fs.readJSONSync` on one metadata file. -/
inductive JsonReadResult
  | ok (data : TweetData)
  | err (msg : String)
  deriving DecidableEq, Repr

/-- The relevant contents of one tweet's archive directory: which filenames
exist, and what reading each candidate metadata file yields. -/
structure TweetDirFS where
  files : List String
  jsonOf : List (String × JsonReadResult)
  deriving DecidableEq, Repr

/-- Suffix strictly after the first occurrence of `pat`, if any. -/
def afterSub (pat : List Char) : List Char → Option (List Char)
  | [] => if prefixOfL pat [] then some [] else none
  | c :: cs =>
    if prefixOfL pat (c :: cs) then some ((c :: cs).drop pat.length)
    else afterSub pat cs

/-- The segment after the last slash. -/
def afterLastSlash (l : List Char) : List Char :=
  (l.reverse.takeWhile (fun c => c != '/')).reverse

/-- `getFilenameFromUrl(url)`: `path.basename(new URL(url).pathname)`, or
null when URL parsing fails.  The embedding keeps the part that the source
relies on: a parse failure when no scheme separator is present, and
otherwise the final path segment with any query or fragment stripped. -/
def getFilenameFromUrl (url : String) : Option String :=
  match afterSub "://".data url.data with
  | none => none
  | some rest =>
    let noQuery := rest.takeWhile (fun c => c != '?' && c != '#')
    let pathname := noQuery.dropWhile (fun c => c != '/')
    some (String.mk (afterLastSlash pathname))

/-- The transfers one media item submits through the limiter, as
(url, destination filename) pairs: existing files are skipped, a photo or
selected video variant whose url yields no filename is skipped (for a video
this `continue` also skips its cover), and a cover is a second independent
transfer. -/
def mediaItemTasks (fs : TweetDirFS) : MediaItem → List (String × String)
  | MediaItem.photo (some img) =>
    (match getFilenameFromUrl img with
     | none => []
     | some fn => if fs.files.contains fn then [] else [(img, fn)])
  | MediaItem.photo none => []
  | MediaItem.video videos cover =>
    let coverTasks : List (String × String) :=
      match cover with
      | none => []
      | some c =>
        match getFilenameFromUrl c with
        | none => []
        | some cn => if fs.files.contains cn then [] else [(c, cn)]
    (match (sortVideos videos).head? with
     | some v0 =>
       (match getFilenameFromUrl v0.url with
        | none => []
        | some fn =>
          (if fs.files.contains fn then [] else [(v0.url, fn)]) ++ coverTasks)
     | none => coverTasks)
  | MediaItem.unsupported => []

/-- All transfers of a media array, in listed order. -/
def mediaTasks (fs : TweetDirFS) : List MediaItem → List (String × String)
  | [] => []
  | m :: rest => mediaItemTasks fs m ++ mediaTasks fs rest

/-- Outcome of `processTweetDir` for one tweet id: the status/reason pair the
source returns, and the transfers it submitted through the limiter. -/
structure PTResult where
  status : String
  reason : Option String
  tasks : List (String × String)
  deriving DecidableEq, Repr

/-- The body of `processTweetDir` past the retry gate: locate the metadata
file (`tweet-data.json`, then `{tweetId}.json`), read it, report `no_media`
when no media array exists, and otherwise submit the media transfers.  The
success/failure counters that the source accumulates from the asynchronous
transfer callbacks are outside this synchronous decision phase. -/
def processTweetDirBody (em : ErrorManager) (fs : TweetDirFS) (tweetId : String)
    (now : String) : PTResult × ErrorManager :=
  let jsonPath : Option String :=
    if fs.files.contains "tweet-data.json" then some "tweet-data.json"
    else if fs.files.contains (tweetId ++ ".json") then some (tweetId ++ ".json")
    else none
  match jsonPath with
  | none =>
    ({ status := "error", reason := some "json_not_found", tasks := [] },
     em.addError tweetId ErrorType.json_parse_error
       [("message", "JSON file not found"), ("tweetId", tweetId)] now)
  | some p =>
    match alookup p fs.jsonOf with
    | some (JsonReadResult.ok data) =>
      (match data.media with
       | none => ({ status := "skipped", reason := some "no_media", tasks := [] }, em)
       | some ms =>
         ({ status := "completed", reason := none, tasks := mediaTasks fs ms }, em))
    | some (JsonReadResult.err msg) =>
      ({ status := "error", reason := some "json_parse_error", tasks := [] },
       em.addError tweetId ErrorType.json_parse_error
         [("message", msg), ("path", p), ("tweetId", tweetId)] now)
    | none =>
      ({ status := "error", reason := some "json_parse_error", tasks := [] },
       em.addError tweetId ErrorType.json_parse_error
         [("message", "unreadable"), ("path", p), ("tweetId", tweetId)] now)

/-- `processTweetDir(tweetId)`: the retry gate consults the Error Ledger
first — a recorded error with `retry_count` below 3 proceeds as a retry,
while 3 or more returns the terminal `max_retry_exceeded` skip without any
further work. -/
def processTweetDir (em : ErrorManager) (fs : TweetDirFS) (tweetId : String)
    (now : String) : PTResult × ErrorManager :=
  match em.getError tweetId with
  | some e =>
    if e.retry_count < 3 then processTweetDirBody em fs tweetId now
    else ({ status := "skipped", reason := some "max_retry_exceeded", tasks := [] }, em)
  | none => processTweetDirBody em fs tweetId now

/-! ### Tweet download and the main loop (`download-tweets.js`) -/

/-- The outcome of the `TwitterDL(tweetUrl)` metadata fetch for one attempt:
a success (whose document holds a nonempty media array or not), a non-success
result with a message, or a thrown exception. -/
inductive FetchOutcome
  | ok (hasMedia : Bool)
  | fail (message : String)
  | thrown (message : String)
  deriving DecidableEq, Repr

/-- The object `downloadTweet` resolves with. -/
structure DTResult where
  success : Bool
  noMedia : Bool
  rateLimit : Bool
  authError : Bool
  retryCount : Option Nat
  output : String
  deriving DecidableEq, Repr

/-- `downloadTweet(tweetId, retryCount)` given the fetch outcome of this
attempt.  On a non-success result, a Guest-Token message below the retry
budget asks the caller to wait and retry; otherwise the error is classified
(`determineErrorType(error, message)`, whose `|| RATE_LIMIT` and
`|| DOWNLOAD_FAILED` fallbacks are dead since the classifier always returns
a kind) and recorded.  On success the metadata document is written to the
archive directory and any error record is removed.  Every return path sets
`authError: false`. -/
def downloadTweet (em : ErrorManager) (tweetId : String) (outcome : FetchOutcome)
    (retryCount : Nat) (maxRateLimitRetries : Nat) (now : String) :
    ErrorManager × DTResult :=
  let tweetUrl := "https://twitter.com/i/web/status/" ++ tweetId
  match outcome with
  | FetchOutcome.fail message =>
    let isGuestTokenError := includes message "Failed to get Guest Token"
    if isGuestTokenError && decide (retryCount < maxRateLimitRetries) then
      (em, { success := false, noMedia := false, rateLimit := true, authError := false,
             retryCount := some (retryCount + 1), output := message })
    else
      let errorType := determineErrorType message message
      (em.addError tweetId errorType
         [("message", message), ("tweetId", tweetId), ("tweetUrl", tweetUrl)] now,
       { success := false, noMedia := false, rateLimit := false, authError := false,
         retryCount := none, output := message })
  | FetchOutcome.ok hasMedia =>
    (em.removeError tweetId,
     { success := hasMedia, noMedia := !hasMedia, rateLimit := false, authError := false,
       retryCount := none, output := "" })
  | FetchOutcome.thrown message =>
    let errorType := determineErrorType message
    (em.addError tweetId errorType
       [("message", message), ("tweetId", tweetId), ("tweetUrl", tweetUrl)] now,
     { success := false, noMedia := false, rateLimit := false, authError := false,
       retryCount := none, output := message })

/-- The mutable state of a `download-tweets.js` run: the three ProcessedSet
buckets of `processed-tweets.json` and the error ledger. -/
structure RunState where
  successful : List (String × String)
  failed : List (String × String)
  noMedia : List (String × String)
  em : ErrorManager
  deriving DecidableEq, Repr

/-- The per-item body of the main loop: download, then record the outcome in
exactly one bucket.  The returned flag is true when the run halts (the
`authError` branch returns from `main`).  On `rateLimit` the loop waits and
retries once with the incremented retry count; `fetch` gives the outcome of
each attempt.  The surrounding `catch` never fires because `downloadTweet`
handles its own exceptions. -/
def processOne (st : RunState) (tweetId : String) (fetch : Nat → FetchOutcome)
    (maxRateLimitRetries : Nat) (now : String) : RunState × Bool :=
  let r1 := downloadTweet st.em tweetId (fetch 0) 0 maxRateLimitRetries now
  let st1 : RunState := { st with em := r1.1 }
  let result := r1.2
  if result.success then
    ({ st1 with successful := aupsert st1.successful tweetId now }, false)
  else if result.noMedia then
    ({ st1 with noMedia := aupsert st1.noMedia tweetId now }, false)
  else if result.authError then
    ({ st1 with failed := aupsert st1.failed tweetId now }, true)
  else if result.rateLimit then
    let rc := result.retryCount.getD 1
    let r2 := downloadTweet st1.em tweetId (fetch rc) rc maxRateLimitRetries now
    let st2 : RunState := { st1 with em := r2.1 }
    let retryResult := r2.2
    if retryResult.success then
      ({ st2 with successful := aupsert st2.successful tweetId now }, false)
    else if retryResult.noMedia then
      ({ st2 with noMedia := aupsert st2.noMedia tweetId now }, false)
    else
      ({ st2 with failed := aupsert st2.failed tweetId now }, false)
  else
    ({ st1 with failed := aupsert st1.failed tweetId now }, false)

/-- The main loop over the filtered worklist, also returning the ids that
were attempted, in order.  The batch partition of the source visits the same
ids in the same order (with waits between batches), and the `authError`
`return` abandons every remaining id of every remaining batch. -/
def mainLoop (maxRateLimitRetries : Nat) (now : String) (st : RunState) :
    List (String × (Nat → FetchOutcome)) → RunState × List String
  | [] => (st, [])
  | (id, fetch) :: rest =>
    let step := processOne st id fetch maxRateLimitRetries now
    if step.2 then (step.1, [id])
    else
      let tail := mainLoop maxRateLimitRetries now step.1 rest
      (tail.1, id :: tail.2)

/-- The worklist filter of `main`: ids already in a bucket or holding an
error record are dropped before the loop starts. -/
def filterProcessable (st : RunState) (ids : List String) : List String :=
  ids.filter (fun id =>
    !(alookup id st.successful).isSome &&
    !(alookup id st.failed).isSome &&
    !(alookup id st.noMedia).isSome &&
    !(st.em.hasError id))

/-- `main`: filter the extracted ids, then drive the loop; `oracle` supplies
the fetch outcome for each id and attempt number. -/
def mainRun (st : RunState) (allTweetIds : List String)
    (oracle : String → Nat → FetchOutcome) (maxRateLimitRetries : Nat)
    (now : String) : RunState × List String :=
  mainLoop maxRateLimitRetries now st
    ((filterProcessable st allTweetIds).map (fun id => (id, oracle id)))

/-! ### Validation / reconciliation (`src/unnamed/part_001`) -/

/-- The state a validation run touches: the archive directories (id and
whether a recognized metadata file — `tweet-data.json` or `{id}.json` — is
inside), the three ProcessedSet buckets, and the error ledger. -/
structure ArchiveState where
  dirs : List (String × Bool)
  successful : List (String × String)
  failed : List (String × String)
  noMedia : List (String × String)
  em : ErrorManager
  deriving DecidableEq, Repr

/-- `existsTweetJson(tweetId)`: a recognized metadata file exists inside the
id's archive directory. -/
def existsTweetJson (s : ArchiveState) (id : String) : Bool :=
  (alookup id s.dirs).getD false

/-- One step of `validateSuccessfulTweets`: an id without local metadata has
its directory deleted, is dropped from `successful`, and is recorded as
`not_found`; an id with metadata merely has any stale error cleared. -/
def validateOne (now : String) (s : ArchiveState) (tweetId : String) : ArchiveState :=
  if existsTweetJson s tweetId then
    if s.em.hasError tweetId then
      { s with em := (s.em.clearErrorRun tweetId).1 }
    else s
  else
    let dirs' := aremove s.dirs tweetId
    let successful' := aremove s.successful tweetId
    let em' := s.em.addError tweetId ErrorType.not_found
      [("message", "tweet-data.json missing")] now
    { s with dirs := dirs', successful := successful', em := em' }

/-- One step of `validateNewTweets`: a directory with metadata whose id is
not in `successful` (only that bucket is consulted) is inserted into
`successful` with the current timestamp, clearing any stale error. -/
def validateNewOne (now : String) (s : ArchiveState) (tweetId : String) : ArchiveState :=
  if existsTweetJson s tweetId && !(alookup tweetId s.successful).isSome then
    if s.em.hasError tweetId then
      { s with successful := aupsert s.successful tweetId now,
               em := (s.em.clearErrorRun tweetId).1 }
    else
      { s with successful := aupsert s.successful tweetId now }
  else s

/-- The whole validation run: the remove-missing pass over a snapshot of the
`successful` keys, then the add-present pass over the directory listing taken
at script start.  Batching (`processBatch` with `BATCH_SIZE = 1000`) visits
the same ids in the same order. -/
def reconcile (now : String) (s : ArchiveState) : ArchiveState :=
  (s.dirs.map Prod.fst).foldl (validateNewOne now)
    ((s.successful.map Prod.fst).foldl (validateOne now) s)

/-! ### Bucket disjointness -/

/-- No key of `a` is a key of `b`. -/
def nokeys (a b : List (String × String)) : Bool :=
  a.all (fun p => (alookup p.1 b).isNone)

/-- Mutual exclusion of the three buckets of a download-run state. -/
def exclusiveRun (st : RunState) : Bool :=
  nokeys st.successful st.failed && nokeys st.successful st.noMedia &&
    nokeys st.failed st.noMedia

/-- Mutual exclusion of the three buckets of an archive state. -/
def exclusiveArc (s : ArchiveState) : Bool :=
  nokeys s.successful s.failed && nokeys s.successful s.noMedia &&
    nokeys s.failed s.noMedia

/-- Precondition under which the add-present pass cannot break mutual
exclusion: every directory bearing metadata whose id is outside `successful`
is also outside `failed` and `noMedia`. -/
def reconcileSafe (s : ArchiveState) : Bool :=
  s.dirs.all (fun p =>
    !p.2 || (alookup p.1 s.successful).isSome ||
      ((alookup p.1 s.failed).isNone && (alookup p.1 s.noMedia).isNone))

/-! ### Predicates used by the theorems -/

/-- An intervening ledger operation on an id other than `x` (`addError` or
`removeError`/`clearError` only). -/
def otherOp (x : String) : LedgerOp → Bool
  | LedgerOp.add id _ _ => id != x
  | LedgerOp.remove id => id != x
  | LedgerOp.clearAll => false

/-- Two ledgers carry the same aggregate statistics: equal totals and equal
per-kind and per-date counts. -/
def statsAgree (a b : ErrorManager) : Prop :=
  a.statistics.total_errors = b.statistics.total_errors ∧
  (∀ t, azero a.statistics.by_type t = azero b.statistics.by_type t) ∧
  (∀ d, azero a.statistics.by_date d = azero b.statistics.by_date d)

/-- The inductive invariant of the limiter state machine: the `running`
counter counts the running tasks, task keys are unique, the resolver queue
holds exactly the queued tasks without duplicates, and a nonempty queue
implies someone is running or scheduled (so a waiter will be released). -/
def LimiterInv (s : LimiterState) : Prop :=
  0 < s.maxConcurrency ∧
  s.running = runningCount s ∧
  (s.status.map Prod.fst).Nodup ∧
  s.queue.Nodup ∧
  (∀ t, t ∈ s.queue ↔ alookup t s.status = some TaskStatus.queued) ∧
  (s.queue ≠ [] → 0 < runningCount s + scheduledCount s)

/-- The binary choice of the running first maximum: the later element wins
only when its key is strictly larger. -/
def pick2 (m w : VideoVariant) : VideoVariant :=
  if vkey m < vkey w then w else m

/-- The joint inductive invariant for the statistics-consistency claim:
unique record keys together with counter consistency. -/
def GoodEM (em : ErrorManager) : Prop :=
  (em.errors.map Prod.fst).Nodup ∧ ConsistentStats em

/-- Every id in `successful` currently has local metadata and carries no
error record: the state a completed validation run leaves behind. -/
def GoodSucc (t : ArchiveState) : Prop :=
  ∀ p ∈ t.successful, existsTweetJson t p.1 = true ∧ t.em.hasError p.1 = false

/-- Propositional form of `reconcileSafe`: every directory bearing metadata
whose id is outside `successful` is also outside `failed` and `noMedia`. -/
def SafeInv (t : ArchiveState) : Prop :=
  ∀ id, alookup id t.dirs = some true →
    (alookup id t.successful).isSome = true ∨
    (alookup id t.failed = none ∧ alookup id t.noMedia = none)

/-- Relation between a ledger that has performed one extra `addError` for
id `x` (kind `k`, date `d`) and one that has not: the record maps agree off
`x`, `x` holds a record of that kind and date, and every aggregate counter
carries exactly the extra increment. -/
def SimAdd (x : String) (k : ErrorType) (d : String) (emA emB : ErrorManager) : Prop :=
  (∀ y, y ≠ x → alookup y emA.errors = alookup y emB.errors) ∧
  (∃ r, alookup x emA.errors = some r ∧ r.type = k ∧ dateOf r.timestamp = d) ∧
  emA.statistics.total_errors = emB.statistics.total_errors + 1 ∧
  (∀ t, azero emA.statistics.by_type t =
    azero emB.statistics.by_type t + (if t = k then 1 else 0)) ∧
  (∀ t, (alookup t emA.statistics.by_type).isSome =
    ((alookup t emB.statistics.by_type).isSome || decide (t = k))) ∧
  (∀ dt, azero emA.statistics.by_date dt =
    azero emB.statistics.by_date dt + (if dt = d then 1 else 0)) ∧
  (∀ dt, (alookup dt emA.statistics.by_date).isSome =
    ((alookup dt emB.statistics.by_date).isSome || decide (dt = d)))

/-! ## Theorems

First, basic lemmas about the association-list operations. -/

theorem alookup_append_of_some [DecidableEq α] {k : α} {a : List (α × β)} {v : β}
    (b : List (α × β)) (h : alookup k a = some v) : alookup k (a ++ b) = some v := by
  induction a with
  | nil => simp [alookup] at h
  | cons p rest ih =>
    obtain ⟨k₂, w⟩ := p
    by_cases hk : k₂ = k
    · simp [alookup, hk] at h ⊢
      exact h
    · simp [alookup, hk] at h ⊢
      exact ih h

theorem alookup_append_of_none [DecidableEq α] {k : α} {a : List (α × β)}
    (b : List (α × β)) (h : alookup k a = none) :
    alookup k (a ++ b) = alookup k b := by
  induction a with
  | nil => rfl
  | cons p rest ih =>
    obtain ⟨k₂, w⟩ := p
    by_cases hk : k₂ = k
    · simp [alookup, hk] at h
    · simp [alookup, hk] at h ⊢
      exact ih h

theorem alookup_eq_none_iff [DecidableEq α] {k : α} {m : List (α × β)} :
    alookup k m = none ↔ k ∉ m.map Prod.fst := by
  induction m with
  | nil => simp [alookup]
  | cons p rest ih =>
    obtain ⟨k₂, w⟩ := p
    by_cases hk : k₂ = k
    · subst hk
      simp [alookup]
    · simp [alookup, hk, ih]
      intro h
      exact fun hh => hk hh.symm

theorem alookup_mem [DecidableEq α] {k : α} {m : List (α × β)} {v : β}
    (h : alookup k m = some v) : (k, v) ∈ m := by
  induction m with
  | nil => simp [alookup] at h
  | cons p rest ih =>
    obtain ⟨k₂, w⟩ := p
    by_cases hk : k₂ = k
    · subst hk
      simp [alookup] at h
      simp [h]
    · simp [alookup, hk] at h
      exact List.mem_cons_of_mem _ (ih h)

theorem mem_alookup_of_nodup [DecidableEq α] {k : α} {m : List (α × β)} {v : β}
    (hnd : (m.map Prod.fst).Nodup) (h : (k, v) ∈ m) : alookup k m = some v := by
  induction m with
  | nil => simp at h
  | cons p rest ih =>
    obtain ⟨k₂, w⟩ := p
    rw [List.map_cons] at hnd
    obtain ⟨hnotin, hnd2⟩ := List.nodup_cons.mp hnd
    rcases List.mem_cons.mp h with h1 | h1
    · simp at h1
      obtain ⟨hk, hv⟩ := h1
      subst hk
      subst hv
      simp [alookup]
    · by_cases hk : k₂ = k
      · subst hk
        exact absurd (List.mem_map_of_mem Prod.fst h1) hnotin
      · simp [alookup, hk]
        exact ih hnd2 h1

theorem alookup_mapUpd_self [DecidableEq α] (m : List (α × β)) (k : α) (v : β) :
    alookup k (m.map (fun p => if p.1 = k then (k, v) else p)) =
      (alookup k m).map (fun _ => v) := by
  induction m with
  | nil => rfl
  | cons p rest ih =>
    obtain ⟨k₂, u⟩ := p
    rw [List.map_cons]
    have hhead : (if (k₂, u).1 = k then (k, v) else (k₂, u)) =
        if k₂ = k then (k, v) else (k₂, u) := rfl
    rw [hhead]
    by_cases hk : k₂ = k
    · subst hk
      rw [if_pos rfl]
      simp [alookup]
    · rw [if_neg hk]
      simp [alookup, hk, ih]

theorem alookup_mapUpd_ne [DecidableEq α] (m : List (α × β)) (k : α) (v : β)
    {j : α} (hj : j ≠ k) :
    alookup j (m.map (fun p => if p.1 = k then (k, v) else p)) = alookup j m := by
  induction m with
  | nil => rfl
  | cons p rest ih =>
    obtain ⟨k₂, u⟩ := p
    rw [List.map_cons]
    have hhead : (if (k₂, u).1 = k then (k, v) else (k₂, u)) =
        if k₂ = k then (k, v) else (k₂, u) := rfl
    rw [hhead]
    by_cases hk : k₂ = k
    · subst hk
      rw [if_pos rfl]
      have hkj : ¬(k₂ = j) := fun h => hj h.symm
      simp [alookup, hkj, ih]
    · rw [if_neg hk]
      by_cases hkj : k₂ = j
      · subst hkj
        simp [alookup, hk]
      · simp [alookup, hk, hkj, ih]

theorem alookup_aupsert_self [DecidableEq α] (m : List (α × β)) (k : α) (v : β) :
    alookup k (aupsert m k v) = some v := by
  unfold aupsert
  cases hc : alookup k m with
  | none =>
    rw [alookup_append_of_none _ hc]
    simp [alookup]
  | some w =>
    rw [alookup_mapUpd_self, hc]
    rfl

theorem alookup_aupsert_ne [DecidableEq α] (m : List (α × β)) (k : α) (v : β)
    {j : α} (hj : j ≠ k) : alookup j (aupsert m k v) = alookup j m := by
  unfold aupsert
  cases hc : alookup k m with
  | none =>
    cases hj2 : alookup j m with
    | none =>
      rw [alookup_append_of_none _ hj2]
      have hkj : ¬(k = j) := fun h => hj h.symm
      simp [alookup, hkj]
    | some w => exact alookup_append_of_some _ hj2
  | some w => exact alookup_mapUpd_ne m k v hj

theorem alookup_aremove_self [DecidableEq α] (m : List (α × β)) (k : α) :
    alookup k (aremove m k) = none := by
  induction m with
  | nil => rfl
  | cons p rest ih =>
    obtain ⟨k₂, u⟩ := p
    by_cases hk : k₂ = k
    · simpa [aremove, hk] using ih
    · simpa [aremove, alookup, hk] using ih

theorem alookup_aremove_ne [DecidableEq α] (m : List (α × β)) (k : α)
    {j : α} (hj : j ≠ k) : alookup j (aremove m k) = alookup j m := by
  induction m with
  | nil => rfl
  | cons p rest ih =>
    obtain ⟨k₂, u⟩ := p
    by_cases hk : k₂ = k
    · subst hk
      have hkj : ¬(k₂ = j) := fun h => hj h.symm
      simpa [aremove, alookup, hkj] using ih
    · by_cases hkj : k₂ = j
      · subst hkj
        simp [aremove, alookup, hk, ih]
      · simpa [aremove, alookup, hk, hkj] using ih

theorem alookup_mapShift_self [DecidableEq α] (m : List (α × Int)) (k : α) (g : Int → Int) :
    alookup k (m.map (fun p => if p.1 = k then (p.1, g p.2) else p)) =
      (alookup k m).map g := by
  induction m with
  | nil => rfl
  | cons p rest ih =>
    obtain ⟨k₂, u⟩ := p
    rw [List.map_cons]
    have hhead : (if (k₂, u).1 = k then ((k₂, u).1, g (k₂, u).2) else (k₂, u)) =
        if k₂ = k then (k₂, g u) else (k₂, u) := rfl
    rw [hhead]
    by_cases hk : k₂ = k
    · subst hk
      rw [if_pos rfl]
      simp [alookup]
    · rw [if_neg hk]
      simp [alookup, hk, ih]

theorem alookup_mapShift_ne [DecidableEq α] (m : List (α × Int)) (k : α) (g : Int → Int)
    {j : α} (hj : j ≠ k) :
    alookup j (m.map (fun p => if p.1 = k then (p.1, g p.2) else p)) = alookup j m := by
  induction m with
  | nil => rfl
  | cons p rest ih =>
    obtain ⟨k₂, u⟩ := p
    rw [List.map_cons]
    have hhead : (if (k₂, u).1 = k then ((k₂, u).1, g (k₂, u).2) else (k₂, u)) =
        if k₂ = k then (k₂, g u) else (k₂, u) := rfl
    rw [hhead]
    by_cases hk : k₂ = k
    · subst hk
      rw [if_pos rfl]
      have hkj : ¬(k₂ = j) := fun h => hj h.symm
      simp [alookup, hkj, ih]
    · rw [if_neg hk]
      by_cases hkj : k₂ = j
      · subst hkj
        simp [alookup, hk]
      · simp [alookup, hk, hkj, ih]

theorem ainc_eq_append [DecidableEq α] {m : List (α × Int)} {k : α}
    (hc : alookup k m = none) : ainc m k = m ++ [(k, 1)] := by
  unfold ainc
  rw [hc]

theorem ainc_eq_mapShift [DecidableEq α] {m : List (α × Int)} {k : α} {r : Int}
    (hc : alookup k m = some r) :
    ainc m k = m.map (fun p => if p.1 = k then (p.1, (fun x : Int => x + 1) p.2) else p) := by
  unfold ainc
  rw [hc]

theorem adec_eq_mapShift [DecidableEq α] {m : List (α × Int)} {k : α} {r : Int}
    (hc : alookup k m = some r) :
    adec m k = m.map (fun p => if p.1 = k then (p.1, (fun x : Int => x - 1) p.2) else p) := by
  unfold adec
  rw [hc]

theorem azero_ainc_self [DecidableEq α] (m : List (α × Int)) (k : α) :
    azero (ainc m k) k = azero m k + 1 := by
  cases hc : alookup k m with
  | none =>
    unfold azero
    rw [ainc_eq_append hc, alookup_append_of_none _ hc, hc]
    simp [alookup]
  | some r =>
    unfold azero
    rw [ainc_eq_mapShift hc, alookup_mapShift_self m k (fun x : Int => x + 1), hc]
    rfl

theorem azero_ainc_ne [DecidableEq α] (m : List (α × Int)) (k : α)
    {j : α} (hj : j ≠ k) : azero (ainc m k) j = azero m j := by
  cases hc : alookup k m with
  | none =>
    unfold azero
    cases hj2 : alookup j m with
    | none =>
      rw [ainc_eq_append hc, alookup_append_of_none _ hj2]
      have hkj : ¬(k = j) := fun h => hj h.symm
      simp [alookup, hkj]
    | some w =>
      rw [ainc_eq_append hc, alookup_append_of_some _ hj2]
  | some r =>
    unfold azero
    rw [ainc_eq_mapShift hc, alookup_mapShift_ne m k (fun x : Int => x + 1) hj]

theorem isSome_ainc_self [DecidableEq α] (m : List (α × Int)) (k : α) :
    (alookup k (ainc m k)).isSome = true := by
  cases hc : alookup k m with
  | none =>
    rw [ainc_eq_append hc, alookup_append_of_none _ hc]
    simp [alookup]
  | some r =>
    rw [ainc_eq_mapShift hc, alookup_mapShift_self m k (fun x : Int => x + 1), hc]
    rfl

theorem isSome_ainc_ne [DecidableEq α] (m : List (α × Int)) (k : α)
    {j : α} (hj : j ≠ k) :
    (alookup j (ainc m k)).isSome = (alookup j m).isSome := by
  cases hc : alookup k m with
  | none =>
    cases hj2 : alookup j m with
    | none =>
      rw [ainc_eq_append hc, alookup_append_of_none _ hj2]
      have hkj : ¬(k = j) := fun h => hj h.symm
      simp [alookup, hkj, hj2]
    | some w =>
      rw [ainc_eq_append hc, alookup_append_of_some _ hj2]
  | some r =>
    rw [ainc_eq_mapShift hc, alookup_mapShift_ne m k (fun x : Int => x + 1) hj]

theorem azero_adec_present [DecidableEq α] (m : List (α × Int)) (k : α)
    (h : (alookup k m).isSome = true) : azero (adec m k) k = azero m k - 1 := by
  cases hc : alookup k m with
  | none => rw [hc] at h; cases h
  | some r =>
    unfold azero
    rw [adec_eq_mapShift hc, alookup_mapShift_self m k (fun x : Int => x - 1), hc]
    rfl

theorem azero_adec_ne [DecidableEq α] (m : List (α × Int)) (k : α)
    {j : α} (hj : j ≠ k) : azero (adec m k) j = azero m j := by
  cases hc : alookup k m with
  | none =>
    unfold adec
    rw [hc]
  | some r =>
    unfold azero
    rw [adec_eq_mapShift hc, alookup_mapShift_ne m k (fun x : Int => x - 1) hj]

theorem isSome_adec [DecidableEq α] (m : List (α × Int)) (k : α) (j : α) :
    (alookup j (adec m k)).isSome = (alookup j m).isSome := by
  cases hc : alookup k m with
  | none =>
    unfold adec
    rw [hc]
  | some r =>
    by_cases hj : j = k
    · subst hj
      rw [adec_eq_mapShift hc, alookup_mapShift_self m j (fun x : Int => x - 1), hc]
      rfl
    · rw [adec_eq_mapShift hc, alookup_mapShift_ne m k (fun x : Int => x - 1) hj]

theorem akey_decomp [DecidableEq α] {m : List (α × β)} {k : α} {r : β}
    (hnd : (m.map Prod.fst).Nodup) (h : alookup k m = some r) :
    ∃ l₁ l₂, m = l₁ ++ (k, r) :: l₂ ∧ k ∉ l₁.map Prod.fst ∧ k ∉ l₂.map Prod.fst := by
  induction m with
  | nil => cases h
  | cons p rest ih =>
    obtain ⟨k₂, u⟩ := p
    rw [List.map_cons] at hnd
    obtain ⟨hnotin, hnd2⟩ := List.nodup_cons.mp hnd
    by_cases hk : k₂ = k
    · subst hk
      simp [alookup] at h
      subst h
      exact ⟨[], rest, rfl, by simp, hnotin⟩
    · simp [alookup, hk] at h
      obtain ⟨l₁, l₂, hm, h1, h2⟩ := ih hnd2 h
      refine ⟨(k₂, u) :: l₁, l₂, by rw [List.cons_append, hm], ?_, h2⟩
      rw [List.map_cons]
      intro hmem
      rcases List.mem_cons.mp hmem with hh | hh
      · exact hk hh.symm
      · exact h1 hh

theorem aremove_decomp [DecidableEq α] {l₁ l₂ : List (α × β)} {k : α} (r : β)
    (h1 : k ∉ l₁.map Prod.fst) (h2 : k ∉ l₂.map Prod.fst) :
    aremove (l₁ ++ (k, r) :: l₂) k = l₁ ++ l₂ := by
  unfold aremove
  rw [List.filter_append]
  have e1 : l₁.filter (fun p => !(decide (p.1 = k))) = l₁ := by
    apply List.filter_eq_self.mpr
    intro p hp
    simp
    intro hh
    exact h1 (hh ▸ List.mem_map_of_mem Prod.fst hp)
  have e2 : l₂.filter (fun p => !(decide (p.1 = k))) = l₂ := by
    apply List.filter_eq_self.mpr
    intro p hp
    simp
    intro hh
    exact h2 (hh ▸ List.mem_map_of_mem Prod.fst hp)
  rw [e1]
  have e3 : ((k, r) :: l₂).filter (fun p => !(decide (p.1 = k))) =
      l₂.filter (fun p => !(decide (p.1 = k))) := by
    simp [List.filter]
  rw [e3, e2]

theorem aupsert_decomp [DecidableEq α] {m l₁ l₂ : List (α × β)} {k : α} {r : β} (v : β)
    (hm : m = l₁ ++ (k, r) :: l₂)
    (h1 : k ∉ l₁.map Prod.fst) (h2 : k ∉ l₂.map Prod.fst) :
    aupsert m k v = l₁ ++ (k, v) :: l₂ := by
  have hl : alookup k m = some r := by
    rw [hm]
    have e1 : alookup k l₁ = none := by
      rw [alookup_eq_none_iff]
      exact h1
    rw [alookup_append_of_none _ e1]
    simp [alookup]
  unfold aupsert
  rw [hl, hm, List.map_append, List.map_cons]
  have e1 : l₁.map (fun p => if p.1 = k then (k, v) else p) = l₁ := by
    apply List.map_congr_left ?_ |>.trans l₁.map_id
    intro p hp
    have : ¬(p.1 = k) := fun hh => h1 (hh ▸ List.mem_map_of_mem Prod.fst hp)
    simp [this]
  have e2 : l₂.map (fun p => if p.1 = k then (k, v) else p) = l₂ := by
    apply List.map_congr_left ?_ |>.trans l₂.map_id
    intro p hp
    have : ¬(p.1 = k) := fun hh => h2 (hh ▸ List.mem_map_of_mem Prod.fst hp)
    simp [this]
  rw [e1, e2]
  simp

theorem aremove_of_none [DecidableEq α] {m : List (α × β)} {k : α}
    (h : alookup k m = none) : aremove m k = m := by
  induction m with
  | nil => rfl
  | cons p rest ih =>
    obtain ⟨k₂, u⟩ := p
    by_cases hk : k₂ = k
    · simp [alookup, hk] at h
    · simp [alookup, hk] at h
      simp [aremove, hk] at ih ⊢
      exact ih h

/-! ### Key-set and length lemmas -/

theorem keys_aupsert_some [DecidableEq α] {m : List (α × β)} {k : α} {r : β} (v : β)
    (hc : alookup k m = some r) :
    (aupsert m k v).map Prod.fst = m.map Prod.fst := by
  unfold aupsert
  rw [hc, List.map_map]
  apply List.map_congr_left
  intro p hp
  by_cases h : p.1 = k
  · simp [h]
  · simp [h]

theorem keys_aupsert_none [DecidableEq α] {m : List (α × β)} {k : α} (v : β)
    (hc : alookup k m = none) :
    (aupsert m k v).map Prod.fst = m.map Prod.fst ++ [k] := by
  unfold aupsert
  rw [hc, List.map_append]
  rfl

theorem length_aupsert_some [DecidableEq α] {m : List (α × β)} {k : α} {r : β} (v : β)
    (hc : alookup k m = some r) : (aupsert m k v).length = m.length := by
  unfold aupsert
  rw [hc, List.length_map]

theorem length_aupsert_none [DecidableEq α] {m : List (α × β)} {k : α} (v : β)
    (hc : alookup k m = none) : (aupsert m k v).length = m.length + 1 := by
  unfold aupsert
  rw [hc, List.length_append]
  rfl

/-! ### Variant selection lemmas (for the video-quality claim) -/

theorem firstMax_foldl (vs : List VideoVariant) (a : VideoVariant) :
    vs.foldl (fun acc w => match acc with
      | none => some w
      | some m => if vkey m < vkey w then some w else some m) (some a) =
    (firstMaxVariant vs).elim (some a)
      (fun w => if vkey a < vkey w then some w else some a) := by
  induction vs generalizing a with
  | nil => rfl
  | cons w ws ih =>
    rw [List.foldl_cons]
    have hred : (match some a with
        | none => some w
        | some m => if vkey m < vkey w then some w else some m : Option VideoVariant) =
        some (pick2 a w) := by
      unfold pick2
      by_cases h : vkey a < vkey w
      · simp [h]
      · simp [h]
    rw [hred, ih (pick2 a w)]
    have hw : firstMaxVariant (w :: ws) = (firstMaxVariant ws).elim (some w)
        (fun u => if vkey w < vkey u then some u else some w) := by
      unfold firstMaxVariant
      rw [List.foldl_cons]
      have hred2 : (match (none : Option VideoVariant) with
          | none => some w
          | some m => if vkey m < vkey w then some w else some m : Option VideoVariant) =
          some w := rfl
      rw [hred2]
      exact ih w
    rw [hw]
    cases hu : firstMaxVariant ws with
    | none =>
      simp only [Option.elim]
      unfold pick2
      split_ifs <;> rfl
    | some u =>
      simp only [Option.elim]
      unfold pick2
      split_ifs <;> simp only [Option.elim] <;> split_ifs <;> first | rfl | (exfalso; omega)

theorem firstMax_cons (v : VideoVariant) (vs : List VideoVariant) :
    firstMaxVariant (v :: vs) = (firstMaxVariant vs).elim (some v)
      (fun w => if vkey v < vkey w then some w else some v) := by
  unfold firstMaxVariant
  rw [List.foldl_cons]
  have hred : (match (none : Option VideoVariant) with
      | none => some v
      | some m => if vkey m < vkey v then some v else some m : Option VideoVariant) =
      some v := rfl
  rw [hred]
  exact firstMax_foldl vs v

theorem head_sortVideos (vs : List VideoVariant) :
    (sortVideos vs).head? = firstMaxVariant vs := by
  induction vs with
  | nil => rfl
  | cons v vs ih =>
    rw [firstMax_cons, ← ih]
    show (insertDesc v (sortVideos vs)).head? = _
    cases hs : sortVideos vs with
    | nil => rfl
    | cons w ws =>
      unfold insertDesc
      simp only [Option.elim, List.head?_cons]
      by_cases h1 : vkey w ≤ vkey v
      · have h2 : ¬(vkey v < vkey w) := not_lt.mpr h1
        simp [h1, h2]
      · have h2 : vkey v < vkey w := not_le.mp h1
        simp [h1, h2]
theorem length_filter_middle (P : α × β → Bool) (l₁ l₂ : List (α × β)) (x : α × β) :
    ((l₁ ++ x :: l₂).filter P).length =
      ((l₁ ++ l₂).filter P).length + (if P x then 1 else 0) := by
  rw [List.filter_append, List.filter_append, List.length_append, List.length_append,
    List.filter_cons]
  cases hP : P x with
  | true => simp [hP]; omega
  | false => simp [hP]

theorem typeCount_append (em : List (String × ErrorRecord)) (r : ErrorRecord)
    (id : String) (t : ErrorType) :
    ((em ++ [(id, r)]).filter (fun p => decide (p.2.type = t))).length =
      (em.filter (fun p => decide (p.2.type = t))).length +
        (if r.type = t then 1 else 0) := by
  rw [List.filter_append, List.length_append]
  by_cases hr : r.type = t
  · simp [List.filter, hr]
  · simp [List.filter, hr]

theorem goodEM_add (em : ErrorManager) (id : String) (k : ErrorType)
    (dtl : List (String × String)) (ts : String)
    (hg : GoodEM em) (hfresh : em.hasError id = false) :
    GoodEM (em.addError id k dtl ts) := by
  have hg2 : (em.errors.map Prod.fst).Nodup ∧ ConsistentStats em := hg
  have hg3 : (em.errors.map Prod.fst).Nodup ∧
      (em.statistics.total_errors = (em.recordCount : Int) ∧
       ∀ t : ErrorType, azero em.statistics.by_type t = (em.typeCount t : Int)) := hg2
  obtain ⟨hnd, htot, hty⟩ := hg3
  have hc : alookup id em.errors = none := by
    unfold ErrorManager.hasError at hfresh
    cases hx : alookup id em.errors with
    | none => rfl
    | some r => rw [hx] at hfresh; cases hfresh
  unfold ErrorManager.addError ErrorManager.addErrorRun
  rw [hc]
  constructor
  · show ((aupsert em.errors id _).map Prod.fst).Nodup
    rw [keys_aupsert_none _ hc]
    rw [List.nodup_append]
    refine ⟨hnd, List.nodup_singleton id, ?_⟩
    intro a ha hb
    rw [List.mem_singleton] at hb
    subst hb
    exact (alookup_eq_none_iff.mp hc) ha
  · constructor
    · show em.statistics.total_errors + 1 = ((aupsert em.errors id _).length : Int)
      rw [length_aupsert_none _ hc, htot]
      unfold ErrorManager.recordCount
      push_cast
      ring
    · intro t
      show azero (ainc em.statistics.by_type k) t =
        (((aupsert em.errors id _).filter (fun p => decide (p.2.type = t))).length : Int)
      unfold aupsert
      rw [hc]
      rw [typeCount_append]
      by_cases hk : t = k
      · subst hk
        rw [azero_ainc_self, hty t]
        simp [ErrorManager.typeCount]
      · have hk2 : (k : ErrorType) ≠ t := fun h => hk h.symm
        rw [azero_ainc_ne _ _ (fun h => hk h), hty t]
        simp [ErrorManager.typeCount, hk2]

theorem goodEM_remove (em : ErrorManager) (id : String)
    (hg : GoodEM em) : GoodEM (em.removeError id) := by
  have hg2 : (em.errors.map Prod.fst).Nodup ∧ ConsistentStats em := hg
  have hg3 : (em.errors.map Prod.fst).Nodup ∧
      (em.statistics.total_errors = (em.recordCount : Int) ∧
       ∀ t : ErrorType, azero em.statistics.by_type t = (em.typeCount t : Int)) := hg2
  obtain ⟨hnd, htot, hty⟩ := hg3
  unfold ErrorManager.removeError ErrorManager.removeErrorRun
  cases hc : alookup id em.errors with
  | none => exact hg
  | some r =>
    obtain ⟨l₁, l₂, hm, h1, h2⟩ := akey_decomp hnd hc
    have hrem : aremove em.errors id = l₁ ++ l₂ := by
      rw [hm]
      exact aremove_decomp r h1 h2
    have hndrem : ((l₁ ++ l₂).map Prod.fst).Nodup := by
      have hsub : List.Sublist (l₁ ++ l₂) em.errors := by
        rw [hm]
        exact List.Sublist.append_left (List.sublist_cons_self _ _) l₁
      exact (hsub.map Prod.fst).nodup hnd
    constructor
    · show ((aremove em.errors id).map Prod.fst).Nodup
      rw [hrem]
      exact hndrem
    · have hmem : (id, r) ∈ em.errors := alookup_mem hc
      have hcount1 : 1 ≤ em.typeCount r.type := by
        unfold ErrorManager.typeCount
        have : (id, r) ∈ em.errors.filter (fun p => decide (p.2.type = r.type)) := by
          rw [List.mem_filter]
          exact ⟨hmem, by simp⟩
        exact List.length_pos_of_mem this
      have hkey : (alookup r.type em.statistics.by_type).isSome = true := by
        by_contra hko
        have hnone : alookup r.type em.statistics.by_type = none := by
          cases hx : alookup r.type em.statistics.by_type with
          | none => rfl
          | some v => rw [hx] at hko; exact absurd rfl hko
        have := hty r.type
        unfold azero at this
        rw [hnone] at this
        simp at this
        omega
      constructor
      · show em.statistics.total_errors - 1 = ((aremove em.errors id).length : Int)
        rw [hrem, htot]
        unfold ErrorManager.recordCount
        rw [hm]
        simp [List.length_append]
        ring_nf
      · intro t
        show azero (adec em.statistics.by_type r.type) t =
          (((aremove em.errors id).filter (fun p => decide (p.2.type = t))).length : Int)
        rw [hrem]
        by_cases ht : t = r.type
        · rw [ht, azero_adec_present _ _ hkey, hty r.type]
          have hfm := length_filter_middle
            (fun p => decide (p.2.type = r.type)) l₁ l₂ (id, r)
          rw [← hm] at hfm
          unfold ErrorManager.typeCount
          rw [hfm]
          simp
        · rw [azero_adec_ne _ _ ht, hty t]
          have hfm := length_filter_middle (fun p => decide (p.2.type = t)) l₁ l₂ (id, r)
          rw [← hm] at hfm
          unfold ErrorManager.typeCount
          rw [hfm]
          have hne : ¬(r.type = t) := fun h => ht h.symm
          simp [hne]

theorem goodEM_clearAll (em : ErrorManager) : GoodEM em.clearAllErrors := by
  refine ⟨by simp [ErrorManager.clearAllErrors], ?_, ?_⟩
  · show (0 : Int) = (em.clearAllErrors.recordCount : Int)
    simp [ErrorManager.clearAllErrors, ErrorManager.recordCount]
  intro t
  show azero ([] : List (ErrorType × Int)) t = _
  simp [azero, alookup, ErrorManager.typeCount, ErrorManager.clearAllErrors,
    List.filter]

theorem goodEM_run (ops : List LedgerOp) (em : ErrorManager)
    (hg : GoodEM em) (hf : freshRun em ops = true) :
    GoodEM (applyOps em ops) := by
  induction ops generalizing em with
  | nil => exact hg
  | cons op rest ih =>
    unfold freshRun at hf
    rw [Bool.and_eq_true] at hf
    obtain ⟨hop, hrest⟩ := hf
    show GoodEM (applyOps (applyOp em op) rest)
    refine ih (applyOp em op) ?_ hrest
    cases op with
    | add id k ts =>
      simp at hop
      exact goodEM_add em id k [] ts hg hop
    | remove id => exact goodEM_remove em id hg
    | clearAll => exact goodEM_clearAll em

/-- Claim C4 (amended): provided no `addError` call targets an id already
holding a record, every finite sequence of addError, removeError (and its
alias clearError) and clearAllErrors operations from the empty ledger keeps
the statistics consistent with the stored records: total_errors equals the
number of records and each per-kind counter equals the number of records of
that kind.  Without this proviso the counterexample above applies — the
source counts error events, not records, on re-insertion. -/
theorem ledger_stats_consistent (ops : List LedgerOp)
    (h : freshRun emptyEM ops = true) :
    ConsistentStats (applyOps emptyEM ops) :=
  (goodEM_run ops emptyEM ⟨List.nodup_nil, rfl, fun _ => rfl⟩ h).2

/-- Witness: statistics consistency at a concrete fresh operation
sequence. -/
theorem ledger_stats_consistent_witness :
    freshRun emptyEM [LedgerOp.add "a" ErrorType.media_404 "2024-01-02T03:04:05Z",
      LedgerOp.add "b" ErrorType.rate_limit "2024-01-02T03:04:05Z",
      LedgerOp.remove "a"] = true ∧
    ConsistentStats (applyOps emptyEM
      [LedgerOp.add "a" ErrorType.media_404 "2024-01-02T03:04:05Z",
       LedgerOp.add "b" ErrorType.rate_limit "2024-01-02T03:04:05Z",
       LedgerOp.remove "a"]) :=
  ⟨by decide, ledger_stats_consistent
    [LedgerOp.add "a" ErrorType.media_404 "2024-01-02T03:04:05Z",
     LedgerOp.add "b" ErrorType.rate_limit "2024-01-02T03:04:05Z",
     LedgerOp.remove "a"] (by decide)⟩

/-! ### Claim C6 -/

/-- Claim C6: the Download Orchestrator consults the Error Ledger first:
an item whose record has retry_count at least 3 is skipped with the
terminal outcome max_retry_exceeded, with no download task submitted and
the ledger untouched; an item whose record has retry_count below 3
proceeds exactly as the ordinary attempt (a retry). -/
theorem retry_gate (em : ErrorManager) (fs : TweetDirFS) (id : String) (now : String) :
    (∀ e, em.getError id = some e → 3 ≤ e.retry_count →
      processTweetDir em fs id now =
        ({ status := "skipped", reason := some "max_retry_exceeded", tasks := [] }, em)) ∧
    (∀ e, em.getError id = some e → e.retry_count < 3 →
      processTweetDir em fs id now = processTweetDirBody em fs id now) := by
  constructor
  · intro e he h3
    unfold processTweetDir
    rw [he]
    have hred : (match some e with
        | some e => if e.retry_count < 3 then processTweetDirBody em fs id now
            else ({ status := "skipped", reason := some "max_retry_exceeded",
                    tasks := [] }, em)
        | none => processTweetDirBody em fs id now) =
        (if e.retry_count < 3 then processTweetDirBody em fs id now
         else ({ status := "skipped", reason := some "max_retry_exceeded",
                 tasks := [] }, em)) := rfl
    rw [hred, if_neg (not_lt.mpr h3)]
  · intro e he h3
    unfold processTweetDir
    rw [he]
    have hred : (match some e with
        | some e => if e.retry_count < 3 then processTweetDirBody em fs id now
            else ({ status := "skipped", reason := some "max_retry_exceeded",
                    tasks := [] }, em)
        | none => processTweetDirBody em fs id now) =
        (if e.retry_count < 3 then processTweetDirBody em fs id now
         else ({ status := "skipped", reason := some "max_retry_exceeded",
                 tasks := [] }, em)) := rfl
    rw [hred, if_pos h3]

/-- Witness: the retry gate at a concrete ledger holding a record with
retry_count 3 (skip) and at one with retry_count 1 (proceed). -/
theorem retry_gate_witness :
    ((⟨[("t", ⟨ErrorType.media_404, "2024-01-01T00:00:00Z", [], 3⟩)],
        ⟨1, [(ErrorType.media_404, 1)], [("2024-01-01", 1)]⟩, false⟩ :
          ErrorManager).getError "t" =
        some ⟨ErrorType.media_404, "2024-01-01T00:00:00Z", [], 3⟩) ∧
    3 ≤ (⟨ErrorType.media_404, "2024-01-01T00:00:00Z", [], 3⟩ : ErrorRecord).retry_count ∧
    processTweetDir
        ⟨[("t", ⟨ErrorType.media_404, "2024-01-01T00:00:00Z", [], 3⟩)],
         ⟨1, [(ErrorType.media_404, 1)], [("2024-01-01", 1)]⟩, false⟩
        ⟨[], []⟩ "t" "2024-01-02T00:00:00Z" =
      ({ status := "skipped", reason := some "max_retry_exceeded", tasks := [] },
       ⟨[("t", ⟨ErrorType.media_404, "2024-01-01T00:00:00Z", [], 3⟩)],
        ⟨1, [(ErrorType.media_404, 1)], [("2024-01-01", 1)]⟩, false⟩) :=
  ⟨by decide, by decide,
    (retry_gate _ _ "t" "2024-01-02T00:00:00Z").1
      ⟨ErrorType.media_404, "2024-01-01T00:00:00Z", [], 3⟩ (by decide) (by decide)⟩

/-! ### Claim C5 -/

/-- Claim C5 (code bug): every return path of `downloadTweet` carries
`authError: false`, so the auth-halt branch in the main loop never fires:
on a worklist whose first item fails its metadata fetch with an
authentication-classified message, the run still attempts the second item
(the claim and the dead halt branch say the run stops after the first). -/
theorem auth_halt_dead_code :
    (∀ (em : ErrorManager) (id : String) (outcome : FetchOutcome)
        (rc mr : Nat) (now : String),
      ((downloadTweet em id outcome rc mr now).2).authError = false) ∧
    (mainRun ⟨[], [], [], emptyEM⟩ ["t1", "t2"]
        (fun id _ =>
          if id = "t1" then FetchOutcome.fail "Authentication failed: bad credentials"
          else FetchOutcome.ok true) 3 "2024-01-01T00:00:00Z").2 = ["t1", "t2"] ∧
    determineErrorType "Authentication failed: bad credentials"
      "Authentication failed: bad credentials" = ErrorType.auth_error := by
  refine ⟨?_, by decide, by decide⟩
  intro em id outcome rc mr now
  cases outcome with
  | ok hasMedia => rfl
  | fail message =>
    cases hgt : includes message "Failed to get Guest Token" && decide (rc < mr) with
    | true => simp [downloadTweet, hgt]
    | false => simp [downloadTweet, hgt]
  | thrown message => rfl

/-! ### Claim C3 -/

/-- Claim C3: `determineErrorType` is a pure function of the concatenation
of the error message and the auxiliary output text, and applies its
substring rules as an ordered first-match list in the priority 404, 403,
429/rate-limit, auth, network, json/parse, download, otherwise
unknown_error; classifying the message
"Error: 429 Too Many Requests while fetching 404 page" yields media_404. -/
theorem classifier_ordered_first_match :
    (∀ msg output : String,
      determineErrorType msg output = firstMatch (msg ++ " " ++ output) classifierRules) ∧
    determineErrorType "Error: 429 Too Many Requests while fetching 404 page" =
      ErrorType.media_404 := by
  constructor
  · intro msg output
    simp [determineErrorType, firstMatch, classifierRules, or_assoc]
  · rfl

/-! ### Claim C9 -/

/-- Claim C9: for every video media entry with a nonempty variant list
exactly one variant is selected for download — the variant with the highest
bitrate, ties broken by encounter order (the first maximum) — and for the
variants [(A,480), (B,1080), (C,720)] the selected url is B. -/
theorem video_variant_selection :
    (∀ vs : List VideoVariant, selectedVariant vs = firstMaxVariant vs) ∧
    (∀ (v : VideoVariant) (vs : List VideoVariant),
      ∃ w, selectedVariant (v :: vs) = some w) ∧
    (selectedVariant
        [⟨"A", some 480⟩, ⟨"B", some 1080⟩, ⟨"C", some 720⟩]).map VideoVariant.url =
      some "B" := by
  refine ⟨fun vs => head_sortVideos vs, ?_, by rfl⟩
  intro v vs
  show ∃ w, (insertDesc v (sortVideos vs)).head? = some w
  cases hs : sortVideos vs with
  | nil => exact ⟨v, rfl⟩
  | cons w ws =>
    unfold insertDesc
    by_cases h : vkey w ≤ vkey v
    · rw [if_pos h]
      exact ⟨v, rfl⟩
    · rw [if_neg h]
      exact ⟨w, rfl⟩

/-! ### Claim C10 -/

/-- Claim C10: for an id holding no record, `removeError` and its alias
`clearError` leave the record map, every statistic and the manager state
unchanged, and trigger no persistence (the saved flag is false); no
exception can be raised since the absent branch performs no work. -/
theorem removeError_absent_noop (em : ErrorManager) (id : String)
    (h : em.hasError id = false) :
    em.removeErrorRun id = (em, false) ∧ em.clearErrorRun id = (em, false) := by
  have hc : alookup id em.errors = none := by
    unfold ErrorManager.hasError at h
    cases hx : alookup id em.errors with
    | none => rfl
    | some r => rw [hx] at h; cases h
  constructor
  · unfold ErrorManager.removeErrorRun
    rw [hc]
  · unfold ErrorManager.clearErrorRun ErrorManager.removeErrorRun
    rw [hc]

/-- Witness: the no-op behaviour of removeError at a concrete empty ledger
and id. -/
theorem removeError_absent_noop_witness :
    emptyEM.hasError "x" = false ∧
      (emptyEM.removeErrorRun "x" = (emptyEM, false) ∧
       emptyEM.clearErrorRun "x" = (emptyEM, false)) :=
  ⟨by decide, removeError_absent_noop emptyEM "x" (by decide)⟩

/-! ### Claim C4 -/

/-- Claim C4 counterexample: after the operation sequence
[addError x media_404, addError x media_404] starting from the empty
ledger, exactly one record is stored but total_errors is 2, so the
statistics do not stay consistent with the record counts over every
sequence of operations (re-adding an existing id inflates the counters). -/
theorem ledger_stats_counterexample :
    (applyOps emptyEM [LedgerOp.add "x" ErrorType.media_404 "2024-01-01T00:00:00Z",
        LedgerOp.add "x" ErrorType.media_404 "2024-01-01T00:00:00Z"]).recordCount = 1 ∧
    (applyOps emptyEM [LedgerOp.add "x" ErrorType.media_404 "2024-01-01T00:00:00Z",
        LedgerOp.add "x" ErrorType.media_404 "2024-01-01T00:00:00Z"]).statistics.total_errors
      = 2 ∧
    ¬ ConsistentStats (applyOps emptyEM
        [LedgerOp.add "x" ErrorType.media_404 "2024-01-01T00:00:00Z",
         LedgerOp.add "x" ErrorType.media_404 "2024-01-01T00:00:00Z"]) := by
  refine ⟨by decide, by decide, ?_⟩
  intro hcon
  have h1 := hcon.1
  revert h1
  decide

/-! ### Lemmas for the reconciliation claims -/

theorem isSome_aupsert_self [DecidableEq α] (m : List (α × β)) (k : α) (v : β) :
    (alookup k (aupsert m k v)).isSome = true := by
  rw [alookup_aupsert_self]
  rfl

theorem isSome_aupsert_ne [DecidableEq α] (m : List (α × β)) (k : α) (v : β)
    {j : α} (hj : j ≠ k) :
    (alookup j (aupsert m k v)).isSome = (alookup j m).isSome := by
  rw [alookup_aupsert_ne _ _ _ hj]

theorem mem_aremove_imp [DecidableEq α] {m : List (α × β)} {k : α} {p : α × β}
    (h : p ∈ aremove m k) : p ∈ m ∧ p.1 ≠ k := by
  have h2 := List.mem_filter.mp h
  refine ⟨h2.1, ?_⟩
  have := h2.2
  simp at this
  exact this

theorem hasError_removeError_self (em : ErrorManager) (y : String) :
    (em.removeError y).hasError y = false := by
  unfold ErrorManager.removeError ErrorManager.removeErrorRun
  cases hc : alookup y em.errors with
  | none =>
    show (alookup y em.errors).isSome = false
    rw [hc]
    rfl
  | some r =>
    show (alookup y (aremove em.errors y)).isSome = false
    rw [alookup_aremove_self]
    rfl

theorem hasError_removeError_ne (em : ErrorManager) (y : String)
    {x : String} (h : x ≠ y) :
    (em.removeError y).hasError x = em.hasError x := by
  unfold ErrorManager.removeError ErrorManager.removeErrorRun
  cases hc : alookup y em.errors with
  | none => rfl
  | some r =>
    show (alookup x (aremove em.errors y)).isSome = (alookup x em.errors).isSome
    rw [alookup_aremove_ne _ _ h]

theorem hasError_addError_ne (em : ErrorManager) (y : String) (k : ErrorType)
    (dtl : List (String × String)) (ts : String) {x : String} (h : x ≠ y) :
    (em.addError y k dtl ts).hasError x = em.hasError x := by
  unfold ErrorManager.addError ErrorManager.addErrorRun
  cases hc : alookup y em.errors with
  | none =>
    show (alookup x (aupsert em.errors y _)).isSome = (alookup x em.errors).isSome
    rw [alookup_aupsert_ne _ _ _ h]
  | some r =>
    show (alookup x (aupsert em.errors y _)).isSome = (alookup x em.errors).isSome
    rw [alookup_aupsert_ne _ _ _ h]

theorem validateOne_components (now : String) (s : ArchiveState) (y : String) :
    (validateOne now s y).dirs =
        (if existsTweetJson s y then s.dirs else aremove s.dirs y) ∧
    (validateOne now s y).successful =
        (if existsTweetJson s y then s.successful else aremove s.successful y) ∧
    (validateOne now s y).failed = s.failed ∧
    (validateOne now s y).noMedia = s.noMedia := by
  unfold validateOne
  split_ifs <;> exact ⟨rfl, rfl, rfl, rfl⟩

theorem validateOne_em (now : String) (s : ArchiveState) (y : String) :
    (validateOne now s y).em =
      (if existsTweetJson s y
       then (if s.em.hasError y then s.em.removeError y else s.em)
       else s.em.addError y ErrorType.not_found
         [("message", "tweet-data.json missing")] now) := by
  unfold validateOne
  split_ifs <;> rfl

theorem validateNewOne_components (now : String) (t : ArchiveState) (y : String) :
    (validateNewOne now t y).dirs = t.dirs ∧
    (validateNewOne now t y).failed = t.failed ∧
    (validateNewOne now t y).noMedia = t.noMedia := by
  unfold validateNewOne
  split_ifs <;> exact ⟨rfl, rfl, rfl⟩

theorem validateNewOne_successful (now : String) (t : ArchiveState) (y : String) :
    (validateNewOne now t y).successful =
      (if existsTweetJson t y && !(alookup y t.successful).isSome
       then aupsert t.successful y now else t.successful) := by
  unfold validateNewOne
  split_ifs <;> rfl

theorem validateNewOne_em (now : String) (t : ArchiveState) (y : String) :
    (validateNewOne now t y).em =
      (if existsTweetJson t y && !(alookup y t.successful).isSome
       then (if t.em.hasError y then t.em.removeError y else t.em)
       else t.em) := by
  unfold validateNewOne
  split_ifs <;> rfl

theorem validateOne_id (now : String) (s : ArchiveState) (y : String)
    (h1 : existsTweetJson s y = true) (h2 : s.em.hasError y = false) :
    validateOne now s y = s := by
  unfold validateOne
  rw [if_pos h1, if_neg (by simp [h2])]

theorem validateNewOne_id (now : String) (t : ArchiveState) (y : String)
    (h : (existsTweetJson t y && !(alookup y t.successful).isSome) = false) :
    validateNewOne now t y = t := by
  unfold validateNewOne
  rw [if_neg (by simp only [h]; exact Bool.false_ne_true)]

theorem foldl_fixed (f : β → α → β) (b : β) :
    ∀ l : List α, (∀ a ∈ l, f b a = b) → l.foldl f b = b := by
  intro l
  induction l with
  | nil => intro; rfl
  | cons x xs ih =>
    intro h
    rw [List.foldl_cons, h x (by simp)]
    exact ih (fun a ha => h a (by simp [ha]))

theorem pass2_dirs (now : String) :
    ∀ (ids : List String) (t : ArchiveState),
      (ids.foldl (validateNewOne now) t).dirs = t.dirs := by
  intro ids
  induction ids with
  | nil => intro t; rfl
  | cons y ys ih =>
    intro t
    rw [List.foldl_cons, ih (validateNewOne now t y)]
    exact (validateNewOne_components now t y).1

theorem pass1_dirs_mem (now : String) :
    ∀ (ids : List String) (s : ArchiveState) (p : String × Bool),
      p ∈ (ids.foldl (validateOne now) s).dirs → p ∈ s.dirs := by
  intro ids
  induction ids with
  | nil => intro s p hp; exact hp
  | cons y ys ih =>
    intro s p hp
    rw [List.foldl_cons] at hp
    have h2 := ih (validateOne now s y) p hp
    rw [(validateOne_components now s y).1] at h2
    by_cases hmeta : existsTweetJson s y
    · rw [if_pos hmeta] at h2
      exact h2
    · rw [if_neg hmeta] at h2
      exact (mem_aremove_imp h2).1

theorem pass2_succ_mono (now : String) :
    ∀ (ids : List String) (t : ArchiveState) (id : String),
      (alookup id t.successful).isSome = true →
      (alookup id ((ids.foldl (validateNewOne now) t)).successful).isSome = true := by
  intro ids
  induction ids with
  | nil => intro t id h; exact h
  | cons y ys ih =>
    intro t id h
    rw [List.foldl_cons]
    apply ih
    rw [validateNewOne_successful]
    by_cases hg : (existsTweetJson t y && !(alookup y t.successful).isSome) = true
    · rw [if_pos hg]
      by_cases hxy : id = y
      · subst hxy
        exact isSome_aupsert_self _ _ _
      · rw [isSome_aupsert_ne _ _ _ hxy]
        exact h
    · rw [if_neg hg]
      exact h

theorem pass2_covers (now : String) :
    ∀ (ids : List String) (t : ArchiveState) (id : String),
      id ∈ ids → alookup id t.dirs = some true →
      (alookup id ((ids.foldl (validateNewOne now) t)).successful).isSome = true := by
  intro ids
  induction ids with
  | nil => intro t id h; simp at h
  | cons y ys ih =>
    intro t id hmem hdir
    rw [List.foldl_cons]
    rcases List.mem_cons.mp hmem with h2 | h2
    · subst h2
      apply pass2_succ_mono
      have ha : existsTweetJson t id = true := by
        unfold existsTweetJson
        rw [hdir]
        rfl
      rw [validateNewOne_successful]
      by_cases hg : (existsTweetJson t id && !(alookup id t.successful).isSome) = true
      · rw [if_pos hg]
        exact isSome_aupsert_self _ _ _
      · rw [if_neg hg]
        rw [ha] at hg
        simp at hg
        exact Option.isSome_iff_ne_none.mpr hg
    · apply ih (validateNewOne now t y) id h2
      rw [(validateNewOne_components now t y).1]
      exact hdir

theorem pass1_good (now : String) :
    ∀ (ids : List String) (s : ArchiveState),
      (∀ p ∈ s.successful, p.1 ∈ ids ∨
        (existsTweetJson s p.1 = true ∧ s.em.hasError p.1 = false)) →
      GoodSucc (ids.foldl (validateOne now) s) := by
  intro ids
  induction ids with
  | nil =>
    intro s h p hp
    rcases h p hp with h1 | h1
    · simp at h1
    · exact h1
  | cons y ys ih =>
    intro s h
    rw [List.foldl_cons]
    apply ih
    intro p hp
    have hmeta2 : existsTweetJson (validateOne now s y) p.1 = existsTweetJson s p.1 ∨
        (¬existsTweetJson s y = true ∧
          (validateOne now s y).dirs = aremove s.dirs y) := by
      by_cases hmeta : existsTweetJson s y
      · left
        unfold existsTweetJson
        rw [(validateOne_components now s y).1, if_pos hmeta]
      · right
        exact ⟨hmeta, by rw [(validateOne_components now s y).1, if_neg hmeta]⟩
    by_cases hmeta : existsTweetJson s y
    · have hsucc : (validateOne now s y).successful = s.successful := by
        rw [(validateOne_components now s y).2.1, if_pos hmeta]
      have hdirs : (validateOne now s y).dirs = s.dirs := by
        rw [(validateOne_components now s y).1, if_pos hmeta]
      have hmetaeq : ∀ z, existsTweetJson (validateOne now s y) z = existsTweetJson s z := by
        intro z
        unfold existsTweetJson
        rw [hdirs]
      have herr2 : ∀ z, (validateOne now s y).em.hasError z = false →
          True := fun _ _ => trivial
      have hemfact : ∀ z, ((z = y ∧ (validateOne now s y).em.hasError z = false) ∨
          (z ≠ y ∧ (validateOne now s y).em.hasError z = s.em.hasError z)) := by
        intro z
        rw [validateOne_em now s y, if_pos hmeta]
        by_cases hz : z = y
        · subst hz
          left
          refine ⟨rfl, ?_⟩
          by_cases herr : s.em.hasError z = true
          · rw [if_pos herr]
            exact hasError_removeError_self s.em z
          · rw [if_neg herr]
            exact Bool.not_eq_true _ |>.mp herr
        · right
          refine ⟨hz, ?_⟩
          by_cases herr : s.em.hasError y = true
          · rw [if_pos herr]
            exact hasError_removeError_ne s.em y hz
          · rw [if_neg herr]
      rw [hsucc] at hp
      rcases h p hp with h1 | h1
      · rcases List.mem_cons.mp h1 with h2 | h2
        · right
          refine ⟨?_, ?_⟩
          · rw [hmetaeq, h2]
            exact hmeta
          · rcases hemfact p.1 with ⟨_, hf⟩ | ⟨hne, _⟩
            · exact hf
            · exact absurd h2 hne
        · exact Or.inl h2
      · right
        refine ⟨by rw [hmetaeq]; exact h1.1, ?_⟩
        rcases hemfact p.1 with ⟨_, hf⟩ | ⟨_, hf⟩
        · exact hf
        · rw [hf]
          exact h1.2
    · have hsucc : (validateOne now s y).successful = aremove s.successful y := by
        rw [(validateOne_components now s y).2.1, if_neg hmeta]
      have hdirs : (validateOne now s y).dirs = aremove s.dirs y := by
        rw [(validateOne_components now s y).1, if_neg hmeta]
      have hem : (validateOne now s y).em = s.em.addError y ErrorType.not_found
          [("message", "tweet-data.json missing")] now := by
        rw [validateOne_em now s y, if_neg hmeta]
      rw [hsucc] at hp
      obtain ⟨hpm, hpne⟩ := mem_aremove_imp hp
      rcases h p hpm with h1 | h1
      · rcases List.mem_cons.mp h1 with h2 | h2
        · exact absurd h2 hpne
        · exact Or.inl h2
      · right
        refine ⟨?_, ?_⟩
        · unfold existsTweetJson
          rw [hdirs, alookup_aremove_ne _ _ hpne]
          exact h1.1
        · rw [hem, hasError_addError_ne _ _ _ _ _ hpne]
          exact h1.2

theorem pass2_good (now : String) :
    ∀ (ids : List String) (t : ArchiveState),
      GoodSucc t → GoodSucc (ids.foldl (validateNewOne now) t) := by
  intro ids
  induction ids with
  | nil => intro t h; exact h
  | cons y ys ih =>
    intro t h
    rw [List.foldl_cons]
    apply ih
    by_cases hg : (existsTweetJson t y && !(alookup y t.successful).isSome) = true
    · intro p hp
      have hdirs : (validateNewOne now t y).dirs = t.dirs :=
        (validateNewOne_components now t y).1
      have hmetaeq : ∀ z, existsTweetJson (validateNewOne now t y) z =
          existsTweetJson t z := by
        intro z
        unfold existsTweetJson
        rw [hdirs]
      have hemy : (validateNewOne now t y).em.hasError y = false := by
        rw [validateNewOne_em, if_pos hg]
        by_cases herr : t.em.hasError y = true
        · rw [if_pos herr]
          exact hasError_removeError_self t.em y
        · rw [if_neg herr]
          exact Bool.not_eq_true _ |>.mp herr
      have hemne : ∀ z, z ≠ y →
          (validateNewOne now t y).em.hasError z = t.em.hasError z := by
        intro z hz
        rw [validateNewOne_em]
        split_ifs with h1
        · exact hasError_removeError_ne t.em y hz
        · rfl
      have hnone : alookup y t.successful = none := by
        have hg2 := hg
        rw [Bool.and_eq_true] at hg2
        have hb := hg2.2
        simp at hb
        exact hb
      have hup : aupsert t.successful y now = t.successful ++ [(y, now)] := by
        unfold aupsert
        rw [hnone]
      rw [validateNewOne_successful, if_pos hg, hup] at hp
      rcases List.mem_append.mp hp with hold | hnew
      · obtain ⟨hm1, hm2⟩ := h p hold
        refine ⟨by rw [hmetaeq]; exact hm1, ?_⟩
        by_cases hzy : p.1 = y
        · rw [hzy]
          exact hemy
        · rw [hemne p.1 hzy]
          exact hm2
      · have hpy : p = (y, now) := by simpa using hnew
        refine ⟨?_, ?_⟩
        · rw [hmetaeq, hpy]
          have hg2 := hg
          rw [Bool.and_eq_true] at hg2
          exact hg2.1
        · rw [hpy]
          exact hemy
    · rw [validateNewOne_id now t y (Bool.not_eq_true _ |>.mp hg)]
      exact h

theorem alookup_isSome_of_mem_keys [DecidableEq α] {m : List (α × β)} {k : α}
    (h : k ∈ m.map Prod.fst) : (alookup k m).isSome = true := by
  cases hc : alookup k m with
  | none => exact absurd h (alookup_eq_none_iff.mp hc)
  | some v => rfl

theorem reconcile_fixed (now₂ : String) (u : ArchiveState) (hgood : GoodSucc u)
    (hcov : ∀ id, alookup id u.dirs = some true →
      (alookup id u.successful).isSome = true) :
    reconcile now₂ u = u := by
  unfold reconcile
  have h1 : (u.successful.map Prod.fst).foldl (validateOne now₂) u = u := by
    apply foldl_fixed
    intro id hid
    obtain ⟨p, hp, hpe⟩ := List.mem_map.mp hid
    obtain ⟨hm, he⟩ := hgood p hp
    apply validateOne_id
    · rw [← hpe]
      exact hm
    · rw [← hpe]
      exact he
  rw [h1]
  apply foldl_fixed
  intro id hid
  apply validateNewOne_id
  cases hb : alookup id u.dirs with
  | none =>
    show (existsTweetJson u id && _) = false
    unfold existsTweetJson
    rw [hb]
    rfl
  | some b =>
    cases b with
    | false =>
      show (existsTweetJson u id && _) = false
      unfold existsTweetJson
      rw [hb]
      rfl
    | true =>
      have hsome := hcov id hb
      show (existsTweetJson u id && !(alookup id u.successful).isSome) = false
      rw [hsome]
      simp

/-! ### Claim C8 -/

/-- Claim C8: running the reconciliation (the remove-missing pass over the
successful ids followed by the add-present pass over the archive
directories) twice in a row with no intervening filesystem change performs
no mutation on the second run: the entire state — the three ProcessedSet
buckets, the Error Ledger, and the archive directories — is unchanged. -/
theorem reconcile_idempotent (s : ArchiveState) (now now₂ : String) :
    reconcile now₂ (reconcile now s) = reconcile now s := by
  have hgood : GoodSucc (reconcile now s) := by
    unfold reconcile
    apply pass2_good
    apply pass1_good
    intro p hp
    exact Or.inl (List.mem_map_of_mem Prod.fst hp)
  have hdirs2 : (reconcile now s).dirs =
      ((s.successful.map Prod.fst).foldl (validateOne now) s).dirs := by
    unfold reconcile
    exact pass2_dirs now _ _
  have hcov : ∀ id, alookup id (reconcile now s).dirs = some true →
      (alookup id (reconcile now s).successful).isSome = true := by
    intro id hid
    have hid2 : alookup id ((s.successful.map Prod.fst).foldl
        (validateOne now) s).dirs = some true := by
      rw [← hdirs2]
      exact hid
    have hmemdir : (id, true) ∈ s.dirs :=
      pass1_dirs_mem now _ s (id, true) (alookup_mem hid2)
    show (alookup id (reconcile now s).successful).isSome = true
    unfold reconcile
    exact pass2_covers now _ _ id (List.mem_map_of_mem Prod.fst hmemdir) hid2
  exact reconcile_fixed now₂ (reconcile now s) hgood hcov

/-! ### Lemmas for the mutual-exclusion claim -/

theorem nokeys_subset_left {a a2 b : List (String × String)}
    (hsub : ∀ p, p ∈ a2 → p ∈ a) (h : nokeys a b = true) : nokeys a2 b = true := by
  rw [nokeys, List.all_eq_true] at h ⊢
  intro p hp
  exact h p (hsub p hp)

theorem nokeys_append_left {a b : List (String × String)} {id now : String}
    (h : nokeys a b = true) (hb : alookup id b = none) :
    nokeys (a ++ [(id, now)]) b = true := by
  rw [nokeys, List.all_eq_true] at h ⊢
  intro p hp
  rcases List.mem_append.mp hp with h1 | h1
  · exact h p h1
  · have : p = (id, now) := by simpa using h1
    rw [this]
    show (alookup id b).isNone = true
    rw [hb]
    rfl

theorem nokeys_append_right {a b : List (String × String)} {id now : String}
    (h : nokeys a b = true) (ha : alookup id a = none) :
    nokeys a (b ++ [(id, now)]) = true := by
  rw [nokeys, List.all_eq_true] at h ⊢
  intro p hp
  have hne : p.1 ≠ id := by
    intro hcon
    have : (alookup p.1 a).isSome = true :=
      alookup_isSome_of_mem_keys (List.mem_map_of_mem Prod.fst hp)
    rw [hcon, ha] at this
    cases this
  have hprev := h p hp
  cases hb : alookup p.1 b with
  | none =>
    show (alookup p.1 (b ++ [(id, now)])).isNone = true
    rw [alookup_append_of_none _ hb]
    have hne2 : ¬(id = p.1) := fun hcon => hne hcon.symm
    simp [alookup, hne2]
  | some v =>
    rw [hb] at hprev
    cases hprev

theorem processOne_buckets (st : RunState) (id : String) (f : Nat → FetchOutcome)
    (mr : Nat) (now : String) :
    ((processOne st id f mr now).1.successful = aupsert st.successful id now ∧
     (processOne st id f mr now).1.failed = st.failed ∧
     (processOne st id f mr now).1.noMedia = st.noMedia) ∨
    ((processOne st id f mr now).1.successful = st.successful ∧
     (processOne st id f mr now).1.failed = aupsert st.failed id now ∧
     (processOne st id f mr now).1.noMedia = st.noMedia) ∨
    ((processOne st id f mr now).1.successful = st.successful ∧
     (processOne st id f mr now).1.failed = st.failed ∧
     (processOne st id f mr now).1.noMedia = aupsert st.noMedia id now) := by
  simp only [processOne]
  split_ifs <;>
    first
      | exact Or.inl ⟨rfl, rfl, rfl⟩
      | exact Or.inr (Or.inl ⟨rfl, rfl, rfl⟩)
      | exact Or.inr (Or.inr ⟨rfl, rfl, rfl⟩)

theorem aupsert_none_eq_append [DecidableEq α] {m : List (α × β)} {k : α} (v : β)
    (h : alookup k m = none) : aupsert m k v = m ++ [(k, v)] := by
  unfold aupsert
  rw [h]

theorem mainLoop_exclusive (mr : Nat) (now : String) :
    ∀ (items : List (String × (Nat → FetchOutcome))) (st : RunState),
      exclusiveRun st = true →
      (∀ q ∈ items, alookup q.1 st.successful = none ∧ alookup q.1 st.failed = none ∧
        alookup q.1 st.noMedia = none) →
      (items.map Prod.fst).Nodup →
      exclusiveRun (mainLoop mr now st items).1 = true := by
  intro items
  induction items with
  | nil => intro st hex _ _; exact hex
  | cons q rest ih =>
    obtain ⟨id, f⟩ := q
    intro st hex habs hnd
    obtain ⟨hid1, hid2, hid3⟩ := habs (id, f) (by simp)
    rw [List.map_cons] at hnd
    obtain ⟨hnotin, hndrest⟩ := List.nodup_cons.mp hnd
    have hne : ∀ q2, q2 ∈ rest → q2.1 ≠ id := by
      intro q2 hq2 hcon
      have hmm := List.mem_map_of_mem Prod.fst hq2
      rw [hcon] at hmm
      exact hnotin hmm
    obtain ⟨hn12, hn3⟩ := Bool.and_eq_true_iff.mp hex
    obtain ⟨hn1, hn2⟩ := Bool.and_eq_true_iff.mp hn12
    have hstep := processOne_buckets st id f mr now
    have hex' : exclusiveRun (processOne st id f mr now).1 = true := by
      apply Bool.and_eq_true_iff.mpr
      refine ⟨Bool.and_eq_true_iff.mpr ⟨?_, ?_⟩, ?_⟩ <;>
        rcases hstep with ⟨e1, e2, e3⟩ | ⟨e1, e2, e3⟩ | ⟨e1, e2, e3⟩
      · rw [e1, e2, aupsert_none_eq_append now hid1]
        exact nokeys_append_left hn1 hid2
      · rw [e1, e2, aupsert_none_eq_append now hid2]
        exact nokeys_append_right hn1 hid1
      · rw [e1, e2]
        exact hn1
      · rw [e1, e3, aupsert_none_eq_append now hid1]
        exact nokeys_append_left hn2 hid3
      · rw [e1, e3]
        exact hn2
      · rw [e1, e3, aupsert_none_eq_append now hid3]
        exact nokeys_append_right hn2 hid1
      · rw [e2, e3]
        exact hn3
      · rw [e2, e3, aupsert_none_eq_append now hid2]
        exact nokeys_append_left hn3 hid3
      · rw [e2, e3, aupsert_none_eq_append now hid3]
        exact nokeys_append_right hn3 hid2
    have habs' : ∀ q2 ∈ rest, alookup q2.1 (processOne st id f mr now).1.successful = none ∧
        alookup q2.1 (processOne st id f mr now).1.failed = none ∧
        alookup q2.1 (processOne st id f mr now).1.noMedia = none := by
      intro q2 hq2
      obtain ⟨ha1, ha2, ha3⟩ := habs q2 (List.mem_cons_of_mem _ hq2)
      have hq2ne := hne q2 hq2
      rcases hstep with ⟨e1, e2, e3⟩ | ⟨e1, e2, e3⟩ | ⟨e1, e2, e3⟩
      · rw [e1, e2, e3, alookup_aupsert_ne _ _ _ hq2ne]
        exact ⟨ha1, ha2, ha3⟩
      · rw [e1, e2, e3, alookup_aupsert_ne _ _ _ hq2ne]
        exact ⟨ha1, ha2, ha3⟩
      · rw [e1, e2, e3, alookup_aupsert_ne _ _ _ hq2ne]
        exact ⟨ha1, ha2, ha3⟩
    have hsplit : (mainLoop mr now st ((id, f) :: rest)).1 =
        (if (processOne st id f mr now).2 = true then (processOne st id f mr now).1
         else (mainLoop mr now (processOne st id f mr now).1 rest).1) := by
      simp only [mainLoop]
      split_ifs <;> rfl
    rw [hsplit]
    split_ifs
    · exact hex'
    · exact ih (processOne st id f mr now).1 hex' habs' hndrest

theorem existsTweetJson_lookup {t : ArchiveState} {y : String}
    (h : existsTweetJson t y = true) : alookup y t.dirs = some true := by
  unfold existsTweetJson at h
  cases hc : alookup y t.dirs with
  | none => rw [hc] at h; cases h
  | some b =>
    rw [hc] at h
    cases b with
    | false => cases h
    | true => rfl

theorem reconcileSafe_to_SafeInv {s : ArchiveState}
    (h : reconcileSafe s = true) : SafeInv s := by
  intro id hid
  have hmem : (id, true) ∈ s.dirs := alookup_mem hid
  rw [reconcileSafe, List.all_eq_true] at h
  have hcond := h (id, true) hmem
  simp at hcond
  rcases hcond with h1 | h1
  · left
    exact h1
  · right
    exact h1

theorem exclusiveArc_split {t : ArchiveState} (h : exclusiveArc t = true) :
    nokeys t.successful t.failed = true ∧ nokeys t.successful t.noMedia = true ∧
    nokeys t.failed t.noMedia = true := by
  obtain ⟨h12, h3⟩ := Bool.and_eq_true_iff.mp h
  obtain ⟨h1, h2⟩ := Bool.and_eq_true_iff.mp h12
  exact ⟨h1, h2, h3⟩

theorem exclusiveArc_build {t : ArchiveState}
    (h1 : nokeys t.successful t.failed = true)
    (h2 : nokeys t.successful t.noMedia = true)
    (h3 : nokeys t.failed t.noMedia = true) : exclusiveArc t = true :=
  Bool.and_eq_true_iff.mpr ⟨Bool.and_eq_true_iff.mpr ⟨h1, h2⟩, h3⟩

theorem validateOne_safe (now : String) (s : ArchiveState) (y : String)
    (hex : exclusiveArc s = true) (hsafe : SafeInv s) :
    exclusiveArc (validateOne now s y) = true ∧ SafeInv (validateOne now s y) := by
  obtain ⟨hn1, hn2, hn3⟩ := exclusiveArc_split hex
  obtain ⟨hcd, hcs, hcf, hcn⟩ := validateOne_components now s y
  by_cases hmeta : existsTweetJson s y
  · rw [if_pos hmeta] at hcd hcs
    constructor
    · apply exclusiveArc_build <;> simp only [hcs, hcf, hcn] <;> assumption
    · intro id hid
      rw [hcd] at hid
      simp only [hcs, hcf, hcn]
      exact hsafe id hid
  · rw [if_neg hmeta] at hcd hcs
    constructor
    · apply exclusiveArc_build <;> simp only [hcs, hcf, hcn]
      · exact nokeys_subset_left (fun p hp => (mem_aremove_imp hp).1) hn1
      · exact nokeys_subset_left (fun p hp => (mem_aremove_imp hp).1) hn2
      · exact hn3
    · intro id hid
      rw [hcd] at hid
      simp only [hcs, hcf, hcn]
      by_cases hidy : id = y
      · subst hidy
        rw [alookup_aremove_self] at hid
        cases hid
      · rw [alookup_aremove_ne _ _ hidy] at hid
        rcases hsafe id hid with h1 | h1
        · left
          rw [alookup_aremove_ne _ _ hidy]
          exact h1
        · right
          exact h1

theorem validateNewOne_safe (now : String) (t : ArchiveState) (y : String)
    (hex : exclusiveArc t = true) (hsafe : SafeInv t) :
    exclusiveArc (validateNewOne now t y) = true ∧
      SafeInv (validateNewOne now t y) := by
  by_cases hg : (existsTweetJson t y && !(alookup y t.successful).isSome) = true
  · obtain ⟨hn1, hn2, hn3⟩ := exclusiveArc_split hex
    obtain ⟨hmetab, hnotin⟩ := Bool.and_eq_true_iff.mp hg
    have hnone : alookup y t.successful = none := by
      simp at hnotin
      exact hnotin
    have hdir : alookup y t.dirs = some true := existsTweetJson_lookup hmetab
    have hpair : alookup y t.failed = none ∧ alookup y t.noMedia = none := by
      rcases hsafe y hdir with h1 | h1
      · rw [hnone] at h1
        cases h1
      · exact h1
    have hcs : (validateNewOne now t y).successful = t.successful ++ [(y, now)] := by
      rw [validateNewOne_successful, if_pos hg, aupsert_none_eq_append now hnone]
    obtain ⟨hcd, hcf, hcn⟩ := validateNewOne_components now t y
    constructor
    · apply exclusiveArc_build <;> simp only [hcs, hcf, hcn] <;>
        first
          | exact nokeys_append_left hn1 hpair.1
          | exact nokeys_append_left hn2 hpair.2
          | exact hn3
    · intro id hid
      rw [hcd] at hid
      simp only [hcs, hcf, hcn]
      by_cases hidy : id = y
      · subst hidy
        left
        rw [alookup_append_of_none _ hnone]
        simp [alookup]
      · rcases hsafe id hid with h1 | h1
        · left
          cases hsome : alookup id t.successful with
          | none =>
            rw [hsome] at h1
            cases h1
          | some v =>
            rw [alookup_append_of_some _ hsome]
            rfl
        · right
          exact h1
  · rw [validateNewOne_id now t y (Bool.not_eq_true _ |>.mp hg)]
    exact ⟨hex, hsafe⟩

theorem pass1_safe (now : String) :
    ∀ (ids : List String) (s : ArchiveState),
      exclusiveArc s = true → SafeInv s →
      exclusiveArc (ids.foldl (validateOne now) s) = true ∧
        SafeInv (ids.foldl (validateOne now) s) := by
  intro ids
  induction ids with
  | nil => intro s hex hsafe; exact ⟨hex, hsafe⟩
  | cons y ys ih =>
    intro s hex hsafe
    rw [List.foldl_cons]
    obtain ⟨hex2, hsafe2⟩ := validateOne_safe now s y hex hsafe
    exact ih (validateOne now s y) hex2 hsafe2

theorem pass2_safe (now : String) :
    ∀ (ids : List String) (t : ArchiveState),
      exclusiveArc t = true → SafeInv t →
      exclusiveArc (ids.foldl (validateNewOne now) t) = true ∧
        SafeInv (ids.foldl (validateNewOne now) t) := by
  intro ids
  induction ids with
  | nil => intro t hex hsafe; exact ⟨hex, hsafe⟩
  | cons y ys ih =>
    intro t hex hsafe
    rw [List.foldl_cons]
    obtain ⟨hex2, hsafe2⟩ := validateNewOne_safe now t y hex hsafe
    exact ih (validateNewOne now t y) hex2 hsafe2

theorem isNone_of_not_isSome {o : Option β} (h : (!o.isSome) = true) : o = none := by
  cases o with
  | none => rfl
  | some v => cases h

/-! ### Claim C2 -/

/-- Claim C2 counterexample: from a state where "X" lies only in `noMedia`
(so the buckets are mutually exclusive) and X's archive directory holds
metadata, the reconciliation add-present pass — which consults only
`successful` — inserts X into `successful`, leaving X in two buckets at
once. -/
theorem buckets_mutual_exclusion_counterexample :
    exclusiveArc ⟨[("X", true)], [], [], [("X", "t0")], emptyEM⟩ = true ∧
    (alookup "X" (reconcile "t1"
        ⟨[("X", true)], [], [], [("X", "t0")], emptyEM⟩).successful).isSome = true ∧
    (alookup "X" (reconcile "t1"
        ⟨[("X", true)], [], [], [("X", "t0")], emptyEM⟩).noMedia).isSome = true ∧
    exclusiveArc (reconcile "t1"
        ⟨[("X", true)], [], [], [("X", "t0")], emptyEM⟩) = false := by
  refine ⟨by decide, by decide, by decide, by decide⟩

/-- Claim C2 (amended): mutual exclusion of the three ProcessedSet buckets
is preserved by every insertion of the download main loop provided the
extracted worklist holds no duplicate ids, and by the reconciliation passes
provided every directory bearing metadata whose id is outside `successful`
is also outside `failed` and `noMedia`.  Without the latter proviso the
add-present pass (which consults only `successful`) breaks the invariant,
as the counterexample shows. -/
theorem buckets_mutual_exclusion_amended :
    (∀ (st : RunState) (ids : List String) (oracle : String → Nat → FetchOutcome)
        (mr : Nat) (now : String),
      exclusiveRun st = true → ids.Nodup →
      exclusiveRun (mainRun st ids oracle mr now).1 = true) ∧
    (∀ (s : ArchiveState) (now : String),
      exclusiveArc s = true → reconcileSafe s = true →
      exclusiveArc (reconcile now s) = true) := by
  constructor
  · intro st ids oracle mr now hex hnd
    unfold mainRun
    apply mainLoop_exclusive
    · exact hex
    · intro q hq
      obtain ⟨id, hidmem, hideq⟩ := List.mem_map.mp hq
      have hfil := List.mem_filter.mp hidmem
      have hcond := hfil.2
      obtain ⟨h123, _⟩ := Bool.and_eq_true_iff.mp hcond
      obtain ⟨h12, h3⟩ := Bool.and_eq_true_iff.mp h123
      obtain ⟨h1, h2⟩ := Bool.and_eq_true_iff.mp h12
      rw [← hideq]
      exact ⟨isNone_of_not_isSome h1, isNone_of_not_isSome h2, isNone_of_not_isSome h3⟩
    · have hkeys : ((filterProcessable st ids).map
          (fun id => (id, oracle id))).map Prod.fst = filterProcessable st ids := by
        rw [List.map_map]
        refine (List.map_congr_left ?_).trans (List.map_id _)
        intro a _
        rfl
      rw [hkeys]
      exact hnd.filter _
  · intro s now hex hsafe
    have hsafe2 := reconcileSafe_to_SafeInv hsafe
    unfold reconcile
    have h1 := pass1_safe now (s.successful.map Prod.fst) s hex hsafe2
    exact (pass2_safe now (s.dirs.map Prod.fst) _ h1.1 h1.2).1

/-- Witness: the amended mutual-exclusion theorem at a concrete run state
and a concrete safe archive state. -/
theorem buckets_mutual_exclusion_witness :
    (exclusiveRun ⟨[], [], [], emptyEM⟩ = true ∧ (["a", "b"] : List String).Nodup ∧
      exclusiveRun (mainRun ⟨[], [], [], emptyEM⟩ ["a", "b"]
        (fun _ _ => FetchOutcome.ok true) 3 "t1").1 = true) ∧
    (exclusiveArc ⟨[("X", true)], [("X", "t0")], [], [], emptyEM⟩ = true ∧
      reconcileSafe ⟨[("X", true)], [("X", "t0")], [], [], emptyEM⟩ = true ∧
      exclusiveArc (reconcile "t1"
        ⟨[("X", true)], [("X", "t0")], [], [], emptyEM⟩) = true) :=
  ⟨⟨by decide, by decide,
    buckets_mutual_exclusion_amended.1 ⟨[], [], [], emptyEM⟩ ["a", "b"]
      (fun _ _ => FetchOutcome.ok true) 3 "t1" (by decide) (by decide)⟩,
   ⟨by decide, by decide,
    buckets_mutual_exclusion_amended.2 ⟨[("X", true)], [("X", "t0")], [], [], emptyEM⟩
      "t1" (by decide) (by decide)⟩⟩

/-! ### Lemmas for the add/remove inverse-pair claim -/

theorem mem_aupsert [DecidableEq α] {m : List (α × β)} {k : α} {v : β} {p : α × β}
    (h : p ∈ aupsert m k v) : p ∈ m ∨ p = (k, v) := by
  unfold aupsert at h
  cases hc : alookup k m with
  | none =>
    rw [hc] at h
    rcases List.mem_append.mp h with h1 | h1
    · exact Or.inl h1
    · exact Or.inr (by simpa using h1)
  | some r =>
    rw [hc] at h
    obtain ⟨q, hq, hqe⟩ := List.mem_map.mp h
    by_cases hqk : q.1 = k
    · right
      rw [← hqe]
      simp [hqk]
    · left
      rw [← hqe]
      simp [hqk]
      exact hq

theorem isSome_ainc_mono [DecidableEq α] {m : List (α × Int)} {k t : α}
    (h : (alookup t m).isSome = true) : (alookup t (ainc m k)).isSome = true := by
  by_cases htk : t = k
  · subst htk
    exact isSome_ainc_self m t
  · rw [isSome_ainc_ne m k htk]
    exact h

theorem wf_addError (em : ErrorManager) (id : String) (k : ErrorType)
    (dtl : List (String × String)) (ts : String) (hwf : WFLedger em = true) :
    WFLedger (em.addError id k dtl ts) = true := by
  rw [WFLedger, List.all_eq_true] at hwf ⊢
  intro p hp
  unfold ErrorManager.addError ErrorManager.addErrorRun at hp ⊢
  rcases mem_aupsert hp with h1 | h1
  · have hold := hwf p h1
    rw [Bool.and_eq_true] at hold
    rw [Bool.and_eq_true]
    exact ⟨isSome_ainc_mono hold.1, isSome_ainc_mono hold.2⟩
  · rw [h1]
    rw [Bool.and_eq_true]
    constructor
    · exact isSome_ainc_self _ _
    · exact isSome_ainc_self _ _

theorem wf_removeError (em : ErrorManager) (id : String) (hwf : WFLedger em = true) :
    WFLedger (em.removeError id) = true := by
  rw [WFLedger, List.all_eq_true] at hwf ⊢
  intro p hp
  unfold ErrorManager.removeError ErrorManager.removeErrorRun at hp ⊢
  cases hc : alookup id em.errors with
  | none =>
    rw [hc] at hp
    exact hwf p hp
  | some r =>
    rw [hc] at hp
    have hp2 : p ∈ em.errors := (mem_aremove_imp hp).1
    have hold := hwf p hp2
    rw [Bool.and_eq_true] at hold
    rw [Bool.and_eq_true]
    rw [isSome_adec, isSome_adec]
    exact hold

theorem wf_applyOp (em : ErrorManager) (op : LedgerOp) (hwf : WFLedger em = true) :
    WFLedger (applyOp em op) = true := by
  cases op with
  | add id k ts => exact wf_addError em id k [] ts hwf
  | remove id => exact wf_removeError em id hwf
  | clearAll =>
    rw [WFLedger, List.all_eq_true]
    intro p hp
    cases hp

theorem addError_components (em : ErrorManager) (x : String) (k : ErrorType)
    (dtl : List (String × String)) (ts : String) :
    (em.addError x k dtl ts).errors = aupsert em.errors x
        ⟨k, ts, dtl,
          (match alookup x em.errors with
           | some r => r.retry_count
           | none => 0) + 1⟩ ∧
    (em.addError x k dtl ts).statistics.total_errors =
      em.statistics.total_errors + 1 ∧
    (em.addError x k dtl ts).statistics.by_type = ainc em.statistics.by_type k ∧
    (em.addError x k dtl ts).statistics.by_date =
      ainc em.statistics.by_date (dateOf ts) :=
  ⟨rfl, rfl, rfl, rfl⟩

theorem removeError_components (em : ErrorManager) (x : String) {r : ErrorRecord}
    (hc : alookup x em.errors = some r) :
    (em.removeError x).errors = aremove em.errors x ∧
    (em.removeError x).statistics.total_errors = em.statistics.total_errors - 1 ∧
    (em.removeError x).statistics.by_type = adec em.statistics.by_type r.type ∧
    (em.removeError x).statistics.by_date =
      adec em.statistics.by_date (dateOf r.timestamp) := by
  unfold ErrorManager.removeError ErrorManager.removeErrorRun
  rw [hc]
  exact ⟨rfl, rfl, rfl, rfl⟩

theorem removeError_none (em : ErrorManager) (x : String)
    (hc : alookup x em.errors = none) : em.removeError x = em := by
  unfold ErrorManager.removeError ErrorManager.removeErrorRun
  rw [hc]

theorem simAdd_init (em : ErrorManager) (x : String) (k : ErrorType)
    (dtl : List (String × String)) (ts : String) :
    SimAdd x k (dateOf ts) (em.addError x k dtl ts) em := by
  obtain ⟨he, ht, hbt, hbd⟩ := addError_components em x k dtl ts
  refine ⟨?_, ?_, ?_, ?_, ?_, ?_, ?_⟩
  · intro y hy
    rw [he, alookup_aupsert_ne _ _ _ hy]
  · refine ⟨_, by rw [he]; exact alookup_aupsert_self _ _ _, rfl, rfl⟩
  · rw [ht]
  · intro t
    rw [hbt]
    by_cases htk : t = k
    · subst htk
      rw [azero_ainc_self, if_pos rfl]
    · rw [azero_ainc_ne _ _ htk, if_neg htk]
      ring
  · intro t
    rw [hbt]
    by_cases htk : t = k
    · subst htk
      rw [isSome_ainc_self]
      simp
    · rw [isSome_ainc_ne _ _ htk]
      simp [htk]
  · intro dt
    rw [hbd]
    by_cases htd : dt = dateOf ts
    · subst htd
      rw [azero_ainc_self, if_pos rfl]
    · rw [azero_ainc_ne _ _ htd, if_neg htd]
      ring
  · intro dt
    rw [hbd]
    by_cases htd : dt = dateOf ts
    · subst htd
      rw [isSome_ainc_self]
      simp
    · rw [isSome_ainc_ne _ _ htd]
      simp [htd]

theorem simAdd_final (x : String) (k : ErrorType) (d : String)
    (emA emB : ErrorManager) (hsim : SimAdd x k d emA emB) :
    statsAgree (emA.removeError x) emB := by
  obtain ⟨heq, ⟨r, hr, hrk, hrd⟩, htot, hty, htyk, hdt, hdtk⟩ := hsim
  obtain ⟨he, ht, hbt, hbd⟩ := removeError_components emA x hr
  refine ⟨?_, ?_, ?_⟩
  · rw [ht, htot]
    ring
  · intro t
    rw [hbt, hrk]
    by_cases htk : t = k
    · subst htk
      have hkey : (alookup t emA.statistics.by_type).isSome = true := by
        rw [htyk t]
        simp
      rw [azero_adec_present _ _ hkey, hty t, if_pos rfl]
      ring
    · rw [azero_adec_ne _ _ htk, hty t, if_neg htk]
      ring
  · intro dt
    rw [hbd, hrd]
    by_cases htd : dt = d
    · subst htd
      have hkey : (alookup dt emA.statistics.by_date).isSome = true := by
        rw [hdtk dt]
        simp
      rw [azero_adec_present _ _ hkey, hdt dt, if_pos rfl]
      ring
    · rw [azero_adec_ne _ _ htd, hdt dt, if_neg htd]
      ring

theorem simAdd_step (x : String) (k : ErrorType) (d : String) (emA emB : ErrorManager)
    (op : LedgerOp) (hsim : SimAdd x k d emA emB) (hwfB : WFLedger emB = true)
    (hop : otherOp x op = true) :
    SimAdd x k d (applyOp emA op) (applyOp emB op) := by
  obtain ⟨heq, ⟨r, hr, hrk, hrd⟩, htot, hty, htyk, hdt, hdtk⟩ := hsim
  cases op with
  | clearAll => simp [otherOp] at hop
  | add y k2 ts2 =>
    have hyx : y ≠ x := by
      simp [otherOp] at hop
      exact hop
    show SimAdd x k d (emA.addError y k2 [] ts2) (emB.addError y k2 [] ts2)
    obtain ⟨heA, htA, hbtA, hbdA⟩ := addError_components emA y k2 [] ts2
    obtain ⟨heB, htB, hbtB, hbdB⟩ := addError_components emB y k2 [] ts2
    refine ⟨?_, ?_, ?_, ?_, ?_, ?_, ?_⟩
    · intro z hz
      rw [heA, heB]
      by_cases hzy : z = y
      · subst hzy
        rw [alookup_aupsert_self, alookup_aupsert_self, heq z hyx]
      · rw [alookup_aupsert_ne _ _ _ hzy, alookup_aupsert_ne _ _ _ hzy]
        exact heq z hz
    · refine ⟨r, ?_, hrk, hrd⟩
      rw [heA, alookup_aupsert_ne _ _ _ (fun h => hyx h.symm)]
      exact hr
    · rw [htA, htB, htot]
    · intro t
      rw [hbtA, hbtB]
      by_cases htk2 : t = k2
      · subst htk2
        rw [azero_ainc_self, azero_ainc_self, hty t]
        ring
      · rw [azero_ainc_ne _ _ htk2, azero_ainc_ne _ _ htk2]
        exact hty t
    · intro t
      rw [hbtA, hbtB]
      by_cases htk2 : t = k2
      · subst htk2
        rw [isSome_ainc_self, isSome_ainc_self]
        rfl
      · rw [isSome_ainc_ne _ _ htk2, isSome_ainc_ne _ _ htk2]
        exact htyk t
    · intro dt
      rw [hbdA, hbdB]
      by_cases htd2 : dt = dateOf ts2
      · rw [htd2, azero_ainc_self, azero_ainc_self, hdt (dateOf ts2)]
        ring
      · rw [azero_ainc_ne _ _ htd2, azero_ainc_ne _ _ htd2]
        exact hdt dt
    · intro dt
      rw [hbdA, hbdB]
      by_cases htd2 : dt = dateOf ts2
      · rw [htd2, isSome_ainc_self, isSome_ainc_self]
        simp
      · rw [isSome_ainc_ne _ _ htd2, isSome_ainc_ne _ _ htd2]
        exact hdtk dt
  | remove y =>
    have hyx : y ≠ x := by
      simp [otherOp] at hop
      exact hop
    show SimAdd x k d (emA.removeError y) (emB.removeError y)
    have heqy := heq y hyx
    cases hcB : alookup y emB.errors with
    | none =>
      have hcA : alookup y emA.errors = none := by rw [heqy, hcB]
      rw [removeError_none emA y hcA, removeError_none emB y hcB]
      exact ⟨heq, ⟨r, hr, hrk, hrd⟩, htot, hty, htyk, hdt, hdtk⟩
    | some r2 =>
      have hcA : alookup y emA.errors = some r2 := by rw [heqy, hcB]
      obtain ⟨heA, htA, hbtA, hbdA⟩ := removeError_components emA y hcA
      obtain ⟨heB, htB, hbtB, hbdB⟩ := removeError_components emB y hcB
      have hwfrec : ((alookup r2.type emB.statistics.by_type).isSome &&
          (alookup (dateOf r2.timestamp) emB.statistics.by_date).isSome) = true := by
        rw [WFLedger, List.all_eq_true] at hwfB
        exact hwfB (y, r2) (alookup_mem hcB)
      obtain ⟨hkeyB, hdkeyB⟩ := Bool.and_eq_true_iff.mp hwfrec
      have hkeyA : (alookup r2.type emA.statistics.by_type).isSome = true := by
        rw [htyk r2.type, hkeyB]
        rfl
      have hdkeyA : (alookup (dateOf r2.timestamp) emA.statistics.by_date).isSome = true := by
        rw [hdtk (dateOf r2.timestamp), hdkeyB]
        rfl
      refine ⟨?_, ?_, ?_, ?_, ?_, ?_, ?_⟩
      · intro z hz
        rw [heA, heB]
        by_cases hzy : z = y
        · subst hzy
          rw [alookup_aremove_self, alookup_aremove_self]
        · rw [alookup_aremove_ne _ _ hzy, alookup_aremove_ne _ _ hzy]
          exact heq z hz
      · refine ⟨r, ?_, hrk, hrd⟩
        rw [heA, alookup_aremove_ne _ _ (fun h => hyx h.symm)]
        exact hr
      · rw [htA, htB, htot]
        ring
      · intro t
        rw [hbtA, hbtB]
        by_cases ht2 : t = r2.type
        · rw [ht2, azero_adec_present _ _ hkeyA, azero_adec_present _ _ hkeyB,
            hty r2.type]
          ring
        · rw [azero_adec_ne _ _ ht2, azero_adec_ne _ _ ht2]
          exact hty t
      · intro t
        rw [hbtA, hbtB, isSome_adec, isSome_adec]
        exact htyk t
      · intro dt
        rw [hbdA, hbdB]
        by_cases htd : dt = dateOf r2.timestamp
        · rw [htd, azero_adec_present _ _ hdkeyA, azero_adec_present _ _ hdkeyB,
            hdt (dateOf r2.timestamp)]
          ring
        · rw [azero_adec_ne _ _ htd, azero_adec_ne _ _ htd]
          exact hdt dt
      · intro dt
        rw [hbdA, hbdB, isSome_adec, isSome_adec]
        exact hdtk dt

theorem simAdd_run (x : String) (k : ErrorType) (d : String) :
    ∀ (O : List LedgerOp) (emA emB : ErrorManager),
      SimAdd x k d emA emB → WFLedger emB = true → O.all (otherOp x) = true →
      SimAdd x k d (applyOps emA O) (applyOps emB O) := by
  intro O
  induction O with
  | nil => intro emA emB hsim _ _; exact hsim
  | cons op rest ih =>
    intro emA emB hsim hwfB hall
    rw [List.all_cons, Bool.and_eq_true] at hall
    show SimAdd x k d (applyOps (applyOp emA op) rest) (applyOps (applyOp emB op) rest)
    exact ih (applyOp emA op) (applyOp emB op)
      (simAdd_step x k d emA emB op hsim hwfB hall.1)
      (wf_applyOp emB op hwfB) hall.2

/-! ### Claim C7 -/

/-- Claim C7: for every id and every well-formed ledger state (every record
has live counter keys for its kind and date — which holds of every state
the ledger itself constructs, since addError creates both keys), performing
addError for that id followed by removeError for the same id restores all
aggregate statistics — total_errors, every by_type count and every by_date
count — to their prior values, for any sequence of intervening
addError/removeError operations on other ids placed between the two
calls. -/
theorem ledger_add_remove_inverse (em : ErrorManager) (x : String) (k : ErrorType)
    (dtl : List (String × String)) (ts : String) (O : List LedgerOp)
    (hwf : WFLedger em = true) (hO : O.all (otherOp x) = true) :
    statsAgree ((applyOps (em.addError x k dtl ts) O).removeError x)
      (applyOps em O) := by
  apply simAdd_final x k (dateOf ts)
  exact simAdd_run x k (dateOf ts) O _ em (simAdd_init em x k dtl ts) hwf hO

/-- Witness: the inverse pair at a concrete ledger with one intervening
add/remove pair on another id. -/
theorem ledger_add_remove_inverse_witness :
    WFLedger emptyEM = true ∧
    ([LedgerOp.add "y" ErrorType.rate_limit "2024-02-02T08:00:00Z",
      LedgerOp.remove "y"].all (otherOp "x")) = true ∧
    statsAgree
      ((applyOps (emptyEM.addError "x" ErrorType.media_404 [] "2024-02-01T09:00:00Z")
          [LedgerOp.add "y" ErrorType.rate_limit "2024-02-02T08:00:00Z",
           LedgerOp.remove "y"]).removeError "x")
      (applyOps emptyEM
        [LedgerOp.add "y" ErrorType.rate_limit "2024-02-02T08:00:00Z",
         LedgerOp.remove "y"]) :=
  ⟨by decide, by decide,
    ledger_add_remove_inverse emptyEM "x" ErrorType.media_404 []
      "2024-02-01T09:00:00Z"
      [LedgerOp.add "y" ErrorType.rate_limit "2024-02-02T08:00:00Z",
       LedgerOp.remove "y"] (by decide) (by decide)⟩

/-! ### Lemmas for the concurrency-limiter claim -/

theorem filterCount_append (m : List (Nat × TaskStatus)) (t : Nat) (v σ : TaskStatus) :
    ((m ++ [(t, v)]).filter (fun p => decide (p.2 = σ))).length =
      (m.filter (fun p => decide (p.2 = σ))).length + (if v = σ then 1 else 0) := by
  rw [List.filter_append, List.length_append]
  by_cases hv : v = σ <;> simp [List.filter, hv]

theorem count_aupsert (m : List (Nat × TaskStatus)) (t : Nat) {old : TaskStatus}
    (v σ : TaskStatus) (hnd : (m.map Prod.fst).Nodup) (hc : alookup t m = some old) :
    ((aupsert m t v).filter (fun p => decide (p.2 = σ))).length +
      (if old = σ then 1 else 0) =
    (m.filter (fun p => decide (p.2 = σ))).length + (if v = σ then 1 else 0) := by
  obtain ⟨l₁, l₂, hm, h1, h2⟩ := akey_decomp hnd hc
  rw [aupsert_decomp v hm h1 h2]
  have e1 := length_filter_middle (fun p => decide (p.2 = σ)) l₁ l₂ (t, old)
  have e2 := length_filter_middle (fun p => decide (p.2 = σ)) l₁ l₂ (t, v)
  rw [← hm] at e1
  rw [e2, e1]
  by_cases ho : old = σ <;> by_cases hv : v = σ <;> simp [ho, hv]

theorem weight_append (m : List (Nat × TaskStatus)) (t : Nat) (v : TaskStatus) :
    ((m ++ [(t, v)]).map (fun p => tweight p.2)).sum =
      (m.map (fun p => tweight p.2)).sum + tweight v := by
  rw [List.map_append, List.sum_append]
  rfl

theorem weight_aupsert (m : List (Nat × TaskStatus)) (t : Nat) {old : TaskStatus}
    (v : TaskStatus) (hnd : (m.map Prod.fst).Nodup) (hc : alookup t m = some old) :
    ((aupsert m t v).map (fun p => tweight p.2)).sum + tweight old =
      (m.map (fun p => tweight p.2)).sum + tweight v := by
  obtain ⟨l₁, l₂, hm, h1, h2⟩ := akey_decomp hnd hc
  rw [aupsert_decomp v hm h1 h2, hm]
  simp only [List.map_append, List.sum_append, List.map_cons, List.sum_cons]
  omega

theorem mem_count_pos (m : List (Nat × TaskStatus)) (t : Nat) (σ : TaskStatus)
    (h : (t, σ) ∈ m) : 0 < (m.filter (fun p => decide (p.2 = σ))).length := by
  apply List.length_pos_of_mem
  show (t, σ) ∈ _
  rw [List.mem_filter]
  exact ⟨h, by simp⟩

theorem alookup_append_single_self (m : List (Nat × TaskStatus)) (t : Nat)
    (v : TaskStatus) (h : alookup t m = none) :
    alookup t (m ++ [(t, v)]) = some v := by
  rw [alookup_append_of_none _ h]
  simp [alookup]

theorem alookup_append_single_ne (m : List (Nat × TaskStatus)) (t u : Nat)
    (v : TaskStatus) (hu : u ≠ t) :
    alookup u (m ++ [(t, v)]) = alookup u m := by
  cases hc : alookup u m with
  | some w => exact alookup_append_of_some _ hc
  | none =>
    rw [alookup_append_of_none _ hc]
    have hne : ¬(t = u) := fun h => hu h.symm
    simp [alookup, hne]

theorem lstep_inv_submit {s s' : LimiterState} {t : Nat} (hinv : LimiterInv s)
    (hstep : lstep s (LEvent.submit t) = some s') : LimiterInv s' := by
  obtain ⟨h0, h1, h2, h3, h4, h5⟩ := hinv
  simp only [lstep] at hstep
  by_cases hex : (alookup t s.status).isSome
  · rw [if_pos hex] at hstep
    exact absurd hstep (by simp)
  · rw [if_neg hex] at hstep
    have hnone : alookup t s.status = none := by
      cases hc : alookup t s.status with
      | none => rfl
      | some w => rw [hc] at hex; simp at hex
    have hkeys : t ∉ s.status.map Prod.fst := alookup_eq_none_iff.mp hnone
    by_cases hfull : s.maxConcurrency ≤ s.running
    · rw [if_pos hfull] at hstep
      injection hstep with hs
      subst hs
      have hrc : runningCount { s with queue := s.queue ++ [t], status := s.status ++ [(t, TaskStatus.queued)] } = runningCount s := by
        show ((s.status ++ [(t, TaskStatus.queued)]).filter
            (fun p => decide (p.2 = TaskStatus.running))).length = runningCount s
        rw [filterCount_append]
        simp [runningCount]
      have hsc : scheduledCount { s with queue := s.queue ++ [t], status := s.status ++ [(t, TaskStatus.queued)] } = scheduledCount s := by
        show ((s.status ++ [(t, TaskStatus.queued)]).filter
            (fun p => decide (p.2 = TaskStatus.scheduled))).length = scheduledCount s
        rw [filterCount_append]
        simp [scheduledCount]
      refine ⟨h0, ?_, ?_, ?_, ?_, ?_⟩
      · rw [hrc]; exact h1
      · show ((s.status ++ [(t, TaskStatus.queued)]).map Prod.fst).Nodup
        have hkm : (s.status ++ [(t, TaskStatus.queued)]).map Prod.fst
            = s.status.map Prod.fst ++ [t] := by simp
        rw [hkm, List.nodup_append]
        refine ⟨h2, List.nodup_singleton t, ?_⟩
        intro a ha hb
        rw [List.mem_singleton] at hb
        subst hb
        exact hkeys ha
      · show (s.queue ++ [t]).Nodup
        rw [List.nodup_append]
        refine ⟨h3, List.nodup_singleton t, ?_⟩
        intro a ha hb
        rw [List.mem_singleton] at hb
        subst hb
        have hq := (h4 a).mp ha
        rw [hnone] at hq
        exact absurd hq (by simp)
      · intro u
        show u ∈ s.queue ++ [t] ↔
            alookup u (s.status ++ [(t, TaskStatus.queued)]) = some TaskStatus.queued
        by_cases hut : u = t
        · subst hut
          constructor
          · intro _
            exact alookup_append_single_self s.status u TaskStatus.queued hnone
          · intro _
            exact List.mem_append_right _ (List.mem_singleton_self u)
        · rw [alookup_append_single_ne s.status t u TaskStatus.queued hut]
          constructor
          · intro hu
            rcases List.mem_append.mp hu with hq | hq
            · exact (h4 u).mp hq
            · rw [List.mem_singleton] at hq
              exact absurd hq hut
          · intro hu
            exact List.mem_append_left _ ((h4 u).mpr hu)
      · intro _
        rw [hrc, hsc]
        have hpos : 0 < s.running := lt_of_lt_of_le h0 hfull
        rw [h1] at hpos
        omega
    · rw [if_neg hfull] at hstep
      injection hstep with hs
      subst hs
      have hrc : runningCount { s with running := s.running + 1, status := s.status ++ [(t, TaskStatus.running)] } = runningCount s + 1 := by
        show ((s.status ++ [(t, TaskStatus.running)]).filter
            (fun p => decide (p.2 = TaskStatus.running))).length = runningCount s + 1
        rw [filterCount_append]
        simp [runningCount]
      refine ⟨h0, ?_, ?_, h3, ?_, ?_⟩
      · show s.running + 1 = _
        rw [hrc, h1]
      · show ((s.status ++ [(t, TaskStatus.running)]).map Prod.fst).Nodup
        have hkm : (s.status ++ [(t, TaskStatus.running)]).map Prod.fst
            = s.status.map Prod.fst ++ [t] := by simp
        rw [hkm, List.nodup_append]
        refine ⟨h2, List.nodup_singleton t, ?_⟩
        intro a ha hb
        rw [List.mem_singleton] at hb
        subst hb
        exact hkeys ha
      · intro u
        show u ∈ s.queue ↔
            alookup u (s.status ++ [(t, TaskStatus.running)]) = some TaskStatus.queued
        by_cases hut : u = t
        · subst hut
          constructor
          · intro hu
            have hq := (h4 u).mp hu
            rw [hnone] at hq
            exact absurd hq (by simp)
          · intro hu
            rw [alookup_append_single_self s.status u TaskStatus.running hnone] at hu
            exact absurd hu (by simp)
        · rw [alookup_append_single_ne s.status t u TaskStatus.running hut]
          exact h4 u
      · intro _
        rw [hrc]
        omega

theorem lstep_inv_finish {s s' : LimiterState} {t : Nat} (hinv : LimiterInv s)
    (hstep : lstep s (LEvent.finish t) = some s') : LimiterInv s' := by
  obtain ⟨h0, h1, h2, h3, h4, h5⟩ := hinv
  simp only [lstep] at hstep
  by_cases hrun : alookup t s.status = some TaskStatus.running
  · rw [if_pos hrun] at hstep
    have h1L : s.running
        = (s.status.filter (fun p => decide (p.2 = TaskStatus.running))).length := h1
    have hrc_pos :
        0 < (s.status.filter (fun p => decide (p.2 = TaskStatus.running))).length :=
      mem_count_pos s.status t TaskStatus.running (alookup_mem hrun)
    have hkeys1 : (aupsert s.status t TaskStatus.done).map Prod.fst
        = s.status.map Prod.fst :=
      keys_aupsert_some TaskStatus.done hrun
    have hnd1 : ((aupsert s.status t TaskStatus.done).map Prod.fst).Nodup := by
      rw [hkeys1]
      exact h2
    have crun1 := count_aupsert s.status t TaskStatus.done TaskStatus.running h2 hrun
    have csch1 := count_aupsert s.status t TaskStatus.done TaskStatus.scheduled h2 hrun
    simp at crun1 csch1
    cases hq : s.queue with
    | nil =>
      rw [hq] at hstep
      have hstep2 : some { s with running := s.running - 1, queue := ([] : List Nat), status := aupsert s.status t TaskStatus.done } = some s' := hstep
      injection hstep2 with hs
      subst hs
      refine ⟨h0, ?_, ?_, ?_, ?_, ?_⟩
      · show s.running - 1 = ((aupsert s.status t TaskStatus.done).filter
            (fun p => decide (p.2 = TaskStatus.running))).length
        omega
      · exact hnd1
      · exact List.nodup_nil
      · intro u
        show u ∈ ([] : List Nat) ↔
            alookup u (aupsert s.status t TaskStatus.done) = some TaskStatus.queued
        constructor
        · intro hu
          exact absurd hu (by simp)
        · intro hu
          by_cases hut : u = t
          · subst hut
            rw [alookup_aupsert_self] at hu
            exact absurd hu (by simp)
          · rw [alookup_aupsert_ne s.status t TaskStatus.done hut] at hu
            have hmem := (h4 u).mpr hu
            rw [hq] at hmem
            exact absurd hmem (by simp)
      · intro hne
        have hne2 : ([] : List Nat) ≠ [] := hne
        exact absurd rfl hne2
    | cons w rest =>
      have hwq : alookup w s.status = some TaskStatus.queued := by
        have hw : w ∈ s.queue := by
          rw [hq]
          exact List.mem_cons_self w rest
        exact (h4 w).mp hw
      have hwt : w ≠ t := by
        intro h
        rw [h, hrun] at hwq
        simp at hwq
      have hw1 : alookup w (aupsert s.status t TaskStatus.done) = some TaskStatus.queued := by
        rw [alookup_aupsert_ne s.status t TaskStatus.done hwt]
        exact hwq
      have hkeys2 : (aupsert (aupsert s.status t TaskStatus.done) w
          TaskStatus.scheduled).map Prod.fst = s.status.map Prod.fst := by
        rw [keys_aupsert_some TaskStatus.scheduled hw1, hkeys1]
      have crun2 := count_aupsert (aupsert s.status t TaskStatus.done) w
        TaskStatus.scheduled TaskStatus.running hnd1 hw1
      have csch2 := count_aupsert (aupsert s.status t TaskStatus.done) w
        TaskStatus.scheduled TaskStatus.scheduled hnd1 hw1
      simp at crun2 csch2
      have hwrest : w ∉ rest := (List.nodup_cons.mp (hq ▸ h3)).1
      rw [hq] at hstep
      have hstep2 : some { s with running := s.running - 1, queue := rest, status := aupsert (aupsert s.status t TaskStatus.done) w TaskStatus.scheduled } = some s' := hstep
      injection hstep2 with hs
      subst hs
      refine ⟨h0, ?_, ?_, ?_, ?_, ?_⟩
      · show s.running - 1 = ((aupsert (aupsert s.status t TaskStatus.done) w
            TaskStatus.scheduled).filter (fun p => decide (p.2 = TaskStatus.running))).length
        omega
      · show ((aupsert (aupsert s.status t TaskStatus.done) w
            TaskStatus.scheduled).map Prod.fst).Nodup
        rw [hkeys2]
        exact h2
      · exact (List.nodup_cons.mp (hq ▸ h3)).2
      · intro u
        show u ∈ rest ↔ alookup u (aupsert (aupsert s.status t TaskStatus.done) w
            TaskStatus.scheduled) = some TaskStatus.queued
        by_cases huw : u = w
        · subst huw
          apply iff_of_false hwrest
          rw [alookup_aupsert_self]
          simp
        · rw [alookup_aupsert_ne (aupsert s.status t TaskStatus.done) w
            TaskStatus.scheduled huw]
          by_cases hut : u = t
          · subst hut
            apply iff_of_false
            · intro hu
              have hmem : u ∈ s.queue := by
                rw [hq]
                exact List.mem_cons_of_mem w hu
              have hx := (h4 u).mp hmem
              rw [hrun] at hx
              simp at hx
            · rw [alookup_aupsert_self]
              simp
          · rw [alookup_aupsert_ne s.status t TaskStatus.done hut]
            constructor
            · intro hu
              refine (h4 u).mp ?_
              rw [hq]
              exact List.mem_cons_of_mem w hu
            · intro hu
              have hmem := (h4 u).mpr hu
              rw [hq] at hmem
              rcases List.mem_cons.mp hmem with h | h
              · exact absurd h huw
              · exact h
      · intro _
        show 0 < ((aupsert (aupsert s.status t TaskStatus.done) w
            TaskStatus.scheduled).filter (fun p => decide (p.2 = TaskStatus.running))).length
            + ((aupsert (aupsert s.status t TaskStatus.done) w
            TaskStatus.scheduled).filter (fun p => decide (p.2 = TaskStatus.scheduled))).length
        omega
  · rw [if_neg hrun] at hstep
    exact absurd hstep (by simp)

theorem lstep_inv_resume {s s' : LimiterState} {t : Nat} (hinv : LimiterInv s)
    (hstep : lstep s (LEvent.resume t) = some s') : LimiterInv s' := by
  obtain ⟨h0, h1, h2, h3, h4, h5⟩ := hinv
  simp only [lstep] at hstep
  by_cases hsch : alookup t s.status = some TaskStatus.scheduled
  · rw [if_pos hsch] at hstep
    have h1L : s.running
        = (s.status.filter (fun p => decide (p.2 = TaskStatus.running))).length := h1
    have crun := count_aupsert s.status t TaskStatus.running TaskStatus.running h2 hsch
    have csch := count_aupsert s.status t TaskStatus.running TaskStatus.scheduled h2 hsch
    simp at crun csch
    injection hstep with hs
    subst hs
    refine ⟨h0, ?_, ?_, h3, ?_, ?_⟩
    · show s.running + 1 = ((aupsert s.status t TaskStatus.running).filter
          (fun p => decide (p.2 = TaskStatus.running))).length
      omega
    · show ((aupsert s.status t TaskStatus.running).map Prod.fst).Nodup
      rw [keys_aupsert_some TaskStatus.running hsch]
      exact h2
    · intro u
      show u ∈ s.queue ↔
          alookup u (aupsert s.status t TaskStatus.running) = some TaskStatus.queued
      by_cases hut : u = t
      · subst hut
        apply iff_of_false
        · intro hu
          have hx := (h4 u).mp hu
          rw [hsch] at hx
          simp at hx
        · rw [alookup_aupsert_self]
          simp
      · rw [alookup_aupsert_ne s.status t TaskStatus.running hut]
        exact h4 u
    · intro _
      show 0 < ((aupsert s.status t TaskStatus.running).filter
          (fun p => decide (p.2 = TaskStatus.running))).length
          + ((aupsert s.status t TaskStatus.running).filter
          (fun p => decide (p.2 = TaskStatus.scheduled))).length
      omega
  · rw [if_neg hsch] at hstep
    exact absurd hstep (by simp)

theorem lstep_inv {s s' : LimiterState} {e : LEvent} (hinv : LimiterInv s)
    (hstep : lstep s e = some s') : LimiterInv s' := by
  cases e with
  | submit t => exact lstep_inv_submit hinv hstep
  | finish t => exact lstep_inv_finish hinv hstep
  | resume t => exact lstep_inv_resume hinv hstep

theorem lstep_submit_props {s s₂ : LimiterState} {t : Nat}
    (hstep : lstep s (LEvent.submit t) = some s₂) :
    s₂.maxConcurrency = s.maxConcurrency ∧
    scheduledCount s₂ = scheduledCount s ∧
    (s₂.running = s.running ∨
      (s.running < s.maxConcurrency ∧ s₂.running = s.running + 1)) := by
  simp only [lstep] at hstep
  by_cases hex : (alookup t s.status).isSome
  · rw [if_pos hex] at hstep
    exact absurd hstep (by simp)
  · rw [if_neg hex] at hstep
    by_cases hfull : s.maxConcurrency ≤ s.running
    · rw [if_pos hfull] at hstep
      injection hstep with hs
      subst hs
      refine ⟨rfl, ?_, Or.inl rfl⟩
      show ((s.status ++ [(t, TaskStatus.queued)]).filter
          (fun p => decide (p.2 = TaskStatus.scheduled))).length = scheduledCount s
      rw [filterCount_append]
      simp [scheduledCount]
    · rw [if_neg hfull] at hstep
      injection hstep with hs
      subst hs
      refine ⟨rfl, ?_, Or.inr ⟨lt_of_not_le hfull, rfl⟩⟩
      show ((s.status ++ [(t, TaskStatus.running)]).filter
          (fun p => decide (p.2 = TaskStatus.scheduled))).length = scheduledCount s
      rw [filterCount_append]
      simp [scheduledCount]

theorem lstep_nosubmit_K {s s₂ : LimiterState} {e : LEvent} (hinv : LimiterInv s)
    (hns : e.isSubmitEv = false) (hstep : lstep s e = some s₂) :
    runningCount s₂ + scheduledCount s₂ ≤ runningCount s + scheduledCount s ∧
    lmeasure s₂ < lmeasure s := by
  obtain ⟨h0, h1, h2, h3, h4, h5⟩ := hinv
  cases e with
  | submit t => simp [LEvent.isSubmitEv] at hns
  | finish t =>
    simp only [lstep] at hstep
    by_cases hrun : alookup t s.status = some TaskStatus.running
    · rw [if_pos hrun] at hstep
      have crun1 := count_aupsert s.status t TaskStatus.done TaskStatus.running h2 hrun
      have csch1 := count_aupsert s.status t TaskStatus.done TaskStatus.scheduled h2 hrun
      have hw1 : ((aupsert s.status t TaskStatus.done).map
          (fun p => tweight p.2)).sum + 1
          = (s.status.map (fun p => tweight p.2)).sum + 0 :=
        weight_aupsert s.status t TaskStatus.done h2 hrun
      simp at crun1 csch1
      have hkeys1 : (aupsert s.status t TaskStatus.done).map Prod.fst
          = s.status.map Prod.fst :=
        keys_aupsert_some TaskStatus.done hrun
      have hnd1 : ((aupsert s.status t TaskStatus.done).map Prod.fst).Nodup := by
        rw [hkeys1]
        exact h2
      cases hq : s.queue with
      | nil =>
        rw [hq] at hstep
        have hstep2 : some { s with running := s.running - 1, queue := ([] : List Nat), status := aupsert s.status t TaskStatus.done } = some s₂ := hstep
        injection hstep2 with hs
        subst hs
        constructor
        · show ((aupsert s.status t TaskStatus.done).filter
              (fun p => decide (p.2 = TaskStatus.running))).length
              + ((aupsert s.status t TaskStatus.done).filter
              (fun p => decide (p.2 = TaskStatus.scheduled))).length
              ≤ (s.status.filter (fun p => decide (p.2 = TaskStatus.running))).length
              + (s.status.filter (fun p => decide (p.2 = TaskStatus.scheduled))).length
          omega
        · show ((aupsert s.status t TaskStatus.done).map (fun p => tweight p.2)).sum
              < (s.status.map (fun p => tweight p.2)).sum
          omega
      | cons w rest =>
        have hwq : alookup w s.status = some TaskStatus.queued := by
          have hw : w ∈ s.queue := by
            rw [hq]
            exact List.mem_cons_self w rest
          exact (h4 w).mp hw
        have hwt : w ≠ t := by
          intro h
          rw [h, hrun] at hwq
          simp at hwq
        have hwl : alookup w (aupsert s.status t TaskStatus.done)
            = some TaskStatus.queued := by
          rw [alookup_aupsert_ne s.status t TaskStatus.done hwt]
          exact hwq
        have crun2 := count_aupsert (aupsert s.status t TaskStatus.done) w
          TaskStatus.scheduled TaskStatus.running hnd1 hwl
        have csch2 := count_aupsert (aupsert s.status t TaskStatus.done) w
          TaskStatus.scheduled TaskStatus.scheduled hnd1 hwl
        have hw2 : ((aupsert (aupsert s.status t TaskStatus.done) w
            TaskStatus.scheduled).map (fun p => tweight p.2)).sum + 3
            = ((aupsert s.status t TaskStatus.done).map
            (fun p => tweight p.2)).sum + 2 :=
          weight_aupsert (aupsert s.status t TaskStatus.done) w
            TaskStatus.scheduled hnd1 hwl
        simp at crun2 csch2
        rw [hq] at hstep
        have hstep2 : some { s with running := s.running - 1, queue := rest, status := aupsert (aupsert s.status t TaskStatus.done) w TaskStatus.scheduled } = some s₂ := hstep
        injection hstep2 with hs
        subst hs
        constructor
        · show ((aupsert (aupsert s.status t TaskStatus.done) w
              TaskStatus.scheduled).filter
              (fun p => decide (p.2 = TaskStatus.running))).length
              + ((aupsert (aupsert s.status t TaskStatus.done) w
              TaskStatus.scheduled).filter
              (fun p => decide (p.2 = TaskStatus.scheduled))).length
              ≤ (s.status.filter (fun p => decide (p.2 = TaskStatus.running))).length
              + (s.status.filter (fun p => decide (p.2 = TaskStatus.scheduled))).length
          omega
        · show ((aupsert (aupsert s.status t TaskStatus.done) w
              TaskStatus.scheduled).map (fun p => tweight p.2)).sum
              < (s.status.map (fun p => tweight p.2)).sum
          omega
    · rw [if_neg hrun] at hstep
      exact absurd hstep (by simp)
  | resume t =>
    simp only [lstep] at hstep
    by_cases hsch : alookup t s.status = some TaskStatus.scheduled
    · rw [if_pos hsch] at hstep
      have crun := count_aupsert s.status t TaskStatus.running TaskStatus.running h2 hsch
      have csch := count_aupsert s.status t TaskStatus.running TaskStatus.scheduled h2 hsch
      have hw : ((aupsert s.status t TaskStatus.running).map
          (fun p => tweight p.2)).sum + 2
          = (s.status.map (fun p => tweight p.2)).sum + 1 :=
        weight_aupsert s.status t TaskStatus.running h2 hsch
      simp at crun csch
      injection hstep with hs
      subst hs
      constructor
      · show ((aupsert s.status t TaskStatus.running).filter
            (fun p => decide (p.2 = TaskStatus.running))).length
            + ((aupsert s.status t TaskStatus.running).filter
            (fun p => decide (p.2 = TaskStatus.scheduled))).length
            ≤ (s.status.filter (fun p => decide (p.2 = TaskStatus.running))).length
            + (s.status.filter (fun p => decide (p.2 = TaskStatus.scheduled))).length
        omega
      · show ((aupsert s.status t TaskStatus.running).map (fun p => tweight p.2)).sum
            < (s.status.map (fun p => tweight p.2)).sum
        omega
    · rw [if_neg hsch] at hstep
      exact absurd hstep (by simp)

theorem runTrace_inv (es : List LEvent) : ∀ (s s₂ : LimiterState), LimiterInv s →
    runTrace s es = some s₂ → LimiterInv s₂ := by
  induction es with
  | nil =>
    intro s s₂ hinv h
    simp [runTrace] at h
    exact h ▸ hinv
  | cons e es ih =>
    intro s s₂ hinv h
    rw [runTrace] at h
    cases hstep : lstep s e with
    | none =>
      rw [hstep] at h
      simp at h
    | some s₁ =>
      rw [hstep] at h
      exact ih s₁ s₂ (lstep_inv hinv hstep) h

theorem runTrace_append (a : List LEvent) : ∀ (b : List LEvent) (s s₂ : LimiterState),
    runTrace s (a ++ b) = some s₂ →
    ∃ s₁, runTrace s a = some s₁ ∧ runTrace s₁ b = some s₂ := by
  induction a with
  | nil =>
    intro b s s₂ h
    exact ⟨s, rfl, h⟩
  | cons e a ih =>
    intro b s s₂ h
    rw [List.cons_append, runTrace] at h
    cases hstep : lstep s e with
    | none =>
      rw [hstep] at h
      simp at h
    | some s₁ =>
      rw [hstep] at h
      obtain ⟨sm, h1, h2⟩ := ih b s₁ s₂ h
      refine ⟨sm, ?_, h2⟩
      rw [runTrace, hstep]
      exact h1

theorem boundedRun_append (n : Nat) (a : List LEvent) :
    ∀ (b : List LEvent) (s s₁ : LimiterState),
    runTrace s a = some s₁ → boundedRun n s a = true → boundedRun n s₁ b = true →
    boundedRun n s (a ++ b) = true := by
  induction a with
  | nil =>
    intro b s s₁ hr hb1 hb2
    simp [runTrace] at hr
    subst hr
    exact hb2
  | cons e a ih =>
    intro b s s₁ hr hb1 hb2
    rw [runTrace] at hr
    rw [boundedRun] at hb1
    cases hstep : lstep s e with
    | none =>
      rw [hstep] at hr
      simp at hr
    | some s₃ =>
      rw [hstep] at hr hb1
      rw [List.cons_append, boundedRun, hstep]
      rw [Bool.and_eq_true_iff] at hb1
      rw [Bool.and_eq_true_iff]
      exact ⟨hb1.1, ih b s₃ s₁ hr hb1.2 hb2⟩

theorem submits_phase (N : Nat) (ids : List Nat) : ∀ (s : LimiterState),
    s.maxConcurrency = N → LimiterInv s → s.running ≤ N → scheduledCount s = 0 →
    boundedRun N s (ids.map LEvent.submit) = true ∧
    ∀ s₁, runTrace s (ids.map LEvent.submit) = some s₁ →
      s₁.running ≤ N ∧ scheduledCount s₁ = 0 := by
  induction ids with
  | nil =>
    intro s hmax hinv hrun hsc
    constructor
    · show decide (runningCount s ≤ N) = true
      rw [← hinv.2.1]
      exact decide_eq_true hrun
    · intro s₁ h
      simp [runTrace] at h
      subst h
      exact ⟨hrun, hsc⟩
  | cons t ids ih =>
    intro s hmax hinv hrun hsc
    rw [List.map_cons]
    have hrcN : decide (runningCount s ≤ N) = true := by
      rw [← hinv.2.1]
      exact decide_eq_true hrun
    cases hstep : lstep s (LEvent.submit t) with
    | none =>
      constructor
      · rw [boundedRun, hstep, Bool.and_eq_true_iff]
        exact ⟨hrcN, rfl⟩
      · intro s₁ h
        rw [runTrace, hstep] at h
        simp at h
    | some s₂ =>
      obtain ⟨hm2, hsc2, hr2⟩ := lstep_submit_props hstep
      have hinv2 := lstep_inv hinv hstep
      have hr2N : s₂.running ≤ N := by
        rcases hr2 with h | ⟨hlt, heq⟩
        · rw [h]
          exact hrun
        · rw [heq]
          rw [hmax] at hlt
          omega
      have hm2N : s₂.maxConcurrency = N := by rw [hm2, hmax]
      have hsc2z : scheduledCount s₂ = 0 := by rw [hsc2, hsc]
      obtain ⟨hb, hpost⟩ := ih s₂ hm2N hinv2 hr2N hsc2z
      constructor
      · rw [boundedRun, hstep, Bool.and_eq_true_iff]
        exact ⟨hrcN, hb⟩
      · intro s₁ h
        rw [runTrace, hstep] at h
        exact hpost s₁ h

theorem nosubmit_bounded (N : Nat) (es : List LEvent) : ∀ (s : LimiterState),
    LimiterInv s → (∀ e ∈ es, e.isSubmitEv = false) →
    runningCount s + scheduledCount s ≤ N →
    boundedRun N s es = true := by
  induction es with
  | nil =>
    intro s hinv hns hK
    show decide (runningCount s ≤ N) = true
    exact decide_eq_true (by omega)
  | cons e es ih =>
    intro s hinv hns hK
    rw [boundedRun, Bool.and_eq_true_iff]
    constructor
    · exact decide_eq_true (by omega)
    · cases hstep : lstep s e with
      | none => rfl
      | some s₂ =>
        have hns1 : e.isSubmitEv = false := hns e (List.mem_cons_self e es)
        obtain ⟨hKd, _⟩ := lstep_nosubmit_K hinv hns1 hstep
        exact ih s₂ (lstep_inv hinv hstep)
          (fun e2 h => hns e2 (List.mem_cons_of_mem e h)) (le_trans hKd hK)

theorem limiter_progress {s : LimiterState} (hinv : LimiterInv s)
    (hnd : allDone s = false) :
    ∃ e s₂, e.isSubmitEv = false ∧ lstep s e = some s₂ := by
  obtain ⟨h0, h1, h2, h3, h4, h5⟩ := hinv
  simp only [allDone, List.all_eq_false] at hnd
  obtain ⟨p, hpmem, hpnd⟩ := hnd
  cases hr : s.status.filter (fun q => decide (q.2 = TaskStatus.running)) with
  | cons q l =>
    have hqmem : q ∈ s.status ∧ decide (q.2 = TaskStatus.running) = true := by
      have hin : q ∈ s.status.filter (fun q => decide (q.2 = TaskStatus.running)) := by
        rw [hr]
        exact List.mem_cons_self q l
      exact List.mem_filter.mp hin
    have hqrun : q.2 = TaskStatus.running := of_decide_eq_true hqmem.2
    have hlook : alookup q.1 s.status = some TaskStatus.running := by
      have hin : (q.1, q.2) ∈ s.status := by
        rw [Prod.mk.eta]
        exact hqmem.1
      rw [hqrun] at hin
      exact mem_alookup_of_nodup h2 hin
    have hsome : (lstep s (LEvent.finish q.1)).isSome := by
      simp only [lstep]
      rw [if_pos hlook]
      cases s.queue <;> simp
    obtain ⟨s₂, hs₂⟩ := Option.isSome_iff_exists.mp hsome
    exact ⟨LEvent.finish q.1, s₂, rfl, hs₂⟩
  | nil =>
    cases hsch : s.status.filter (fun q => decide (q.2 = TaskStatus.scheduled)) with
    | cons q l =>
      have hqmem : q ∈ s.status ∧ decide (q.2 = TaskStatus.scheduled) = true := by
        have hin : q ∈ s.status.filter (fun q => decide (q.2 = TaskStatus.scheduled)) := by
          rw [hsch]
          exact List.mem_cons_self q l
        exact List.mem_filter.mp hin
      have hqsch : q.2 = TaskStatus.scheduled := of_decide_eq_true hqmem.2
      have hlook : alookup q.1 s.status = some TaskStatus.scheduled := by
        have hin : (q.1, q.2) ∈ s.status := by
          rw [Prod.mk.eta]
          exact hqmem.1
        rw [hqsch] at hin
        exact mem_alookup_of_nodup h2 hin
      refine ⟨LEvent.resume q.1, { s with running := s.running + 1, status := aupsert s.status q.1 TaskStatus.running }, rfl, ?_⟩
      simp only [lstep]
      rw [if_pos hlook]
    | nil =>
      have hnr : ¬(p.2 = TaskStatus.running) := by
        intro h
        have hin : p ∈ s.status.filter (fun q => decide (q.2 = TaskStatus.running)) :=
          List.mem_filter.mpr ⟨hpmem, decide_eq_true h⟩
        rw [hr] at hin
        simp at hin
      have hnsch : ¬(p.2 = TaskStatus.scheduled) := by
        intro h
        have hin : p ∈ s.status.filter (fun q => decide (q.2 = TaskStatus.scheduled)) :=
          List.mem_filter.mpr ⟨hpmem, decide_eq_true h⟩
        rw [hsch] at hin
        simp at hin
      have hqd : p.2 = TaskStatus.queued := by
        cases hc : p.2 with
        | queued => rfl
        | scheduled => exact absurd hc hnsch
        | running => exact absurd hc hnr
        | done => exact absurd (decide_eq_true hc) hpnd
      have hlookq : alookup p.1 s.status = some TaskStatus.queued := by
        have hin : (p.1, p.2) ∈ s.status := by
          rw [Prod.mk.eta]
          exact hpmem
        rw [hqd] at hin
        exact mem_alookup_of_nodup h2 hin
      have hqn : s.queue ≠ [] := by
        intro hqe
        have hin := (h4 p.1).mpr hlookq
        rw [hqe] at hin
        simp at hin
      have hpos := h5 hqn
      have hrc0 : runningCount s = 0 := by
        show (s.status.filter (fun q => decide (q.2 = TaskStatus.running))).length = 0
        rw [hr]
        rfl
      have hsc0 : scheduledCount s = 0 := by
        show (s.status.filter (fun q => decide (q.2 = TaskStatus.scheduled))).length = 0
        rw [hsch]
        rfl
      rw [hrc0, hsc0] at hpos
      exact absurd hpos (by simp)

theorem limiter_completion (n : Nat) : ∀ (s : LimiterState), lmeasure s ≤ n →
    LimiterInv s →
    ∃ ext, (∀ e ∈ ext, e.isSubmitEv = false) ∧
      ∃ s₂, runTrace s ext = some s₂ ∧ allDone s₂ = true := by
  induction n with
  | zero =>
    intro s hm hinv
    by_cases hdone : allDone s = true
    · exact ⟨[], by simp, s, rfl, hdone⟩
    · obtain ⟨e, s₂, hns, hstep⟩ :=
        limiter_progress hinv (Bool.eq_false_iff.mpr hdone)
    
      obtain ⟨_, hdec⟩ := lstep_nosubmit_K hinv hns hstep
      exact absurd hm (by omega)
  | succ n ih =>
    intro s hm hinv
    by_cases hdone : allDone s = true
    · exact ⟨[], by simp, s, rfl, hdone⟩
    · obtain ⟨e, s₂, hns, hstep⟩ :=
        limiter_progress hinv (Bool.eq_false_iff.mpr hdone)
      obtain ⟨_, hdec⟩ := lstep_nosubmit_K hinv hns hstep
      have hinv2 := lstep_inv hinv hstep
      have hm2 : lmeasure s₂ ≤ n := by omega
      obtain ⟨ext, hext, s₃, hrt, hd⟩ := ih s₂ hm2 hinv2
      refine ⟨e :: ext, ?_, s₃, ?_, hd⟩
      · intro e2 he2
        rcases List.mem_cons.mp he2 with h | h
        · rw [h]
          exact hns
        · exact hext e2 h
      · rw [runTrace, hstep]
        exact hrt

/-- Claim C1, counterexample to the literal claim: with `maxConcurrency = 1`
and three submitted tasks, the scheduler gap between `this.running--; next()`
and the released waiter incrementing `running` lets a fresh submission start
while the released task also starts, so two tasks are simultaneously in the
started-but-not-finished state and the capacity bound of the run is violated. -/
theorem limiter_capacity_counterexample :
    (runTrace (initLimiter 1) [LEvent.submit 0, LEvent.submit 1, LEvent.finish 0,
      LEvent.submit 2, LEvent.resume 1]).map runningCount = some 2 ∧
    boundedRun 1 (initLimiter 1) [LEvent.submit 0, LEvent.submit 1,
      LEvent.finish 0, LEvent.submit 2, LEvent.resume 1] = false := by
  decide

/-- Claim C1 (amended): for the limiter constructed with `maxConcurrency = N`,
`0 < N`, if all tasks are submitted before any completion event — which is how
`processBatch` uses the limiter, submitting the whole batch synchronously —
then at no point along the execution are more than `N` tasks simultaneously in
the started-but-not-finished state, and from the state reached by any such
execution, the remaining tasks can always run to completion (every task ends
in the `done` state after finitely many further finish/resume events). -/
theorem limiter_bounded_and_completes (N : Nat) (hN : 0 < N) (ids : List Nat)
    (rest : List LEvent) (hrest : ∀ e ∈ rest, e.isSubmitEv = false)
    (s₁ : LimiterState)
    (hrun : runTrace (initLimiter N) (ids.map LEvent.submit ++ rest) = some s₁) :
    boundedRun N (initLimiter N) (ids.map LEvent.submit ++ rest) = true ∧
    ∃ ext, (∀ e ∈ ext, e.isSubmitEv = false) ∧
      ∃ s₂, runTrace s₁ ext = some s₂ ∧ allDone s₂ = true := by
  have hinv0 : LimiterInv (initLimiter N) := by
    refine ⟨hN, rfl, List.nodup_nil, List.nodup_nil, ?_, ?_⟩
    · intro u
      simp [initLimiter, alookup]
    · intro h
      exact absurd rfl h
  obtain ⟨s1, hrt1, hrt2⟩ :=
    runTrace_append (ids.map LEvent.submit) rest (initLimiter N) s₁ hrun
  obtain ⟨hb1, hpost⟩ :=
    submits_phase N ids (initLimiter N) rfl hinv0 (Nat.zero_le N) rfl
  obtain ⟨hr1, hsc1⟩ := hpost s1 hrt1
  have hinv1 : LimiterInv s1 :=
    runTrace_inv (ids.map LEvent.submit) (initLimiter N) s1 hinv0 hrt1
  have hK1 : runningCount s1 + scheduledCount s1 ≤ N := by
    rw [hsc1, ← hinv1.2.1]
    omega
  have hb2 : boundedRun N s1 rest = true :=
    nosubmit_bounded N rest s1 hinv1 hrest hK1
  have hbound : boundedRun N (initLimiter N) (ids.map LEvent.submit ++ rest) = true :=
    boundedRun_append N (ids.map LEvent.submit) rest (initLimiter N) s1 hrt1 hb1 hb2
  have hinv2 : LimiterInv s₁ := runTrace_inv rest s1 s₁ hinv1 hrt2
  exact ⟨hbound, limiter_completion (lmeasure s₁) s₁ (le_refl _) hinv2⟩

/-- Witness for the amended limiter theorem: `N = 1`, two tasks submitted and
then run to completion. -/
theorem limiter_bounded_and_completes_witness :
    boundedRun 1 (initLimiter 1) (([0, 1] : List Nat).map LEvent.submit ++
      [LEvent.finish 0, LEvent.resume 1, LEvent.finish 1]) = true ∧
    ∃ ext, (∀ e ∈ ext, e.isSubmitEv = false) ∧
      ∃ s₂, runTrace { maxConcurrency := 1, running := 0, queue := [], status := [(0, TaskStatus.done), (1, TaskStatus.done)] } ext = some s₂ ∧ allDone s₂ = true :=
  limiter_bounded_and_completes 1 (by decide) [0, 1]
    [LEvent.finish 0, LEvent.resume 1, LEvent.finish 1] (by decide)
    { maxConcurrency := 1, running := 0, queue := [], status := [(0, TaskStatus.done), (1, TaskStatus.done)] }
    (by decide)

end LikeJs
